import Mathlib

/-!
# Verification of the TradingHub strategy optimizer (`src/optimizer.js`)

Shallow embedding of the `StrategyOptimizer` class.  JavaScript numbers are
modelled as exact rationals (`ℚ`) together with the non-finite values `NaN`,
`Infinity` and `-Infinity` that division can produce (`JsNum`); `Math.random()`
is modelled as an oracle stream `σ : ℕ → ℚ` consumed one draw at a time; the
asynchronous fitness evaluator (`testParameterSet` simulates it with
`Math.random`/`Math.sin` and is described by the repository spec as an external
collaborator) is abstracted as an oracle `score : ParamSet → ℕ → ℚ`; the
cooperative cancellation flag `this.isOptimizing` is modelled as a stream
`flag : ℕ → Bool` giving the value the flag has when the engine checks it after
`n` evaluations have been recorded (the flag can only change while the engine
is suspended in an `await`, which happens between recorded evaluations).
JavaScript objects used as parameter-set maps are modelled as
insertion-ordered association lists.
-/

namespace StrategyOptimizer

/-- JavaScript number resulting from arithmetic: a finite (exact) rational or
one of the non-finite IEEE values. -/
inductive JsNum where
  | fin (q : ℚ)
  | nan
  | inf
  | negInf
deriving DecidableEq, Repr

/-- JavaScript division `a / b` of finite numbers: `0/0 = NaN`,
`±x/0 = ±Infinity` for `x ≠ 0`, ordinary division otherwise. -/
def jsDiv (a b : ℚ) : JsNum :=
  if b = 0 then
    (if a = 0 then JsNum.nan else if 0 < a then JsNum.inf else JsNum.negInf)
  else JsNum.fin (a / b)

/-- Multiplication of a JavaScript number by the positive finite constant 100
(the only non-finite-capable multiplication in the source). -/
def jsMul100 : JsNum → JsNum
  | JsNum.fin q => JsNum.fin (q * 100)
  | JsNum.nan => JsNum.nan
  | JsNum.inf => JsNum.inf
  | JsNum.negInf => JsNum.negInf

/-- `Math.round` on a finite number: round half up. -/
def jsRound (q : ℚ) : ℤ := ⌊q + 1/2⌋

/-- `Math.round` lifted to `JsNum` (`Math.round` fixes the non-finite values). -/
def jsRoundNum : JsNum → JsNum
  | JsNum.fin q => JsNum.fin (jsRound q)
  | x => x

/-- A JavaScript value stored in a parameter set: a boolean or a number. -/
inductive Value where
  | bool (b : Bool)
  | num (q : ℚ)
deriving DecidableEq, Repr

/-- Parameter type tag (`param.type` in the source). -/
inductive PType where
  | integer
  | float
  | boolean
deriving DecidableEq, Repr

/-- A parameter definition (`{name, type, min, max, step, current}`).
`step` is optional in the source (`param.step || 1`). -/
structure Param where
  name : String
  type : PType
  min : ℚ := 0
  max : ℚ := 0
  step : Option ℚ := none
  current : Value := Value.num 0
deriving DecidableEq, Repr

/-- A candidate parameter set: a JavaScript object modelled as an
insertion-ordered association list from parameter name to value. -/
abbrev ParamSet := List (String × Value)

/-- `obj[name] = v` on a JavaScript object: overwrite the value of an existing
key in place (keeping insertion order), or append a fresh key at the end. -/
def setKey : ParamSet → String → Value → ParamSet
  | [], n, v => [(n, v)]
  | (m, w) :: rest, n, v =>
      if m = n then (n, v) :: rest else (m, w) :: setKey rest n v

/-- `obj[name]` read as a number (the source only reads numeric parameters this
way; a boolean coerces as in JavaScript arithmetic, and a missing key is
unreachable for the parameter sets the engine builds). -/
def getNum (ps : ParamSet) : String → ℚ
  | n =>
    match ps.lookup n with
    | some (Value.num q) => q
    | some (Value.bool b) => if b then 1 else 0
    | none => 0

/-- `param.step || 1`: `undefined` and `0` are falsy. -/
def jsOrOne : Option ℚ → ℚ
  | none => 1
  | some s => if s = 0 then 1 else s

/-- Clamp as `Math.max(param.min, Math.min(param.max, v))`. -/
def clampTo (p : Param) (v : ℚ) : ℚ := max p.min (min p.max v)

/-- Sampling density levels accepted by `generateParameterSets`. -/
inductive Density where
  | basic
  | coarse
  | standard
  | fine
deriving DecidableEq, Repr

/-- The `densityMap` of `generateParameterSets`. -/
def densitySteps : Density → ℕ
  | Density.basic => 3
  | Density.coarse => 5
  | Density.standard => 7
  | Density.fine => 10

/-- One step value of `generateParameterSteps`'s numeric loop at index `i`:
`min + stepSize * i`, rounded for integer parameters. -/
def numericStepValue (p : Param) (stepCount : ℕ) (i : ℕ) : ℚ :=
  let stepSize := (p.max - p.min) / ((stepCount : ℚ) - 1)
  let v := p.min + stepSize * i
  if p.type = PType.integer then (jsRound v : ℚ) else v

/-- The numeric branch of `generateParameterSteps`: push each step value
unless it is already present (`steps.includes(value)`). -/
def numericSteps (p : Param) (stepCount : ℕ) : List ℚ :=
  (List.range stepCount).foldl
    (fun steps i =>
      let v := numericStepValue p stepCount i
      if v ∈ steps then steps else steps ++ [v])
    []

/-- `generateParameterSteps(param, stepCount)`: booleans always sample
`[true, false]`; numeric parameters sample `stepCount` evenly spaced values
with rounding and de-duplication; any other type yields `[]`. -/
def generateParameterSteps (p : Param) (stepCount : ℕ) : List Value :=
  match p.type with
  | PType.boolean => [Value.bool true, Value.bool false]
  | _ => (numericSteps p stepCount).map Value.num

/-- The recursive `generateCombinations` closure of `generateParameterSets`,
with the mutable outer `sets` accumulator threaded explicitly.  At the leaf the
snapshot `{...current}` is pushed; in the loop over a parameter's steps the
generation aborts (`return`) as soon as the accumulator holds 10000 sets. -/
def genComb (stepsOf : Param → List Value) :
    List Param → ParamSet → List ParamSet → List ParamSet
  | [], current, sets => sets ++ [current]
  | p :: rest, current, sets =>
      genStepsLoop (fun v s => genComb stepsOf rest (current ++ [(p.name, v)]) s)
        (stepsOf p) sets
where
  /-- The `for (const value of steps)` loop with its early `return`. -/
  genStepsLoop (body : Value → List ParamSet → List ParamSet) :
      List Value → List ParamSet → List ParamSet
    | [], sets => sets
    | v :: vs, sets =>
        let sets' := body v sets
        if 10000 ≤ sets'.length then sets' else genStepsLoop body vs sets'

/-- The same enumeration without the 10000 cap (for relating the capped
generator to the full Cartesian product). -/
def genAll (stepsOf : Param → List Value) :
    List Param → ParamSet → List ParamSet
  | [], current => [current]
  | p :: rest, current =>
      (stepsOf p).flatMap fun v => genAll stepsOf rest (current ++ [(p.name, v)])

/-- Swap the entries at positions `i` and `j` of a list
(`[a[i], a[j]] = [a[j], a[i]]`); out-of-range indices leave the list
unchanged (unreachable in `shuffleArray`). -/
def listSwap (l : List α) (i j : ℕ) : List α :=
  match l.get? i, l.get? j with
  | some a, some b => (l.set i b).set j a
  | _, _ => l

/-- The Fisher–Yates loop of `shuffleArray`, from index `i` down to 1,
consuming one `Math.random()` draw (indexed by `k`) per step. -/
def shuffleGo (σ : ℕ → ℚ) : ℕ → ℕ → List α → List α
  | 0, _, l => l
  | i + 1, k, l =>
      shuffleGo σ i (k + 1) (listSwap l (i + 1) (⌊σ k * ((i : ℚ) + 2)⌋).toNat)

/-- `shuffleArray(array)`: copy, then Fisher–Yates shuffle driven by the
random oracle `σ` starting at draw index `k`. -/
def shuffleArray (σ : ℕ → ℚ) (k : ℕ) (l : List α) : List α :=
  shuffleGo σ (l.length - 1) k l

/-- `generateParameterSets(parameters, density)`: enumerate the (capped)
Cartesian product of the per-parameter sample values, then shuffle. -/
def generateParameterSets (σ : ℕ → ℚ) (k : ℕ) (params : List Param)
    (density : Density) : List ParamSet :=
  shuffleArray σ k
    (genComb (fun p => generateParameterSteps p (densitySteps density)) params [] [])

/-- An `EvaluationResult` as built by `testParameterSet` (the opaque `metrics`
object and the wall-clock `timestamp` carry no information used by the
engine and are omitted). -/
structure EvalResult where
  iteration : ℕ
  parameters : ParamSet
  score : ℚ
deriving DecidableEq, Repr

/-- The mutable optimizer state relevant to the claims: the `this.results`
log and the `this.bestResult` pointer (both reset at the start of
`optimize()`). -/
structure OptState where
  results : List EvalResult := []
  bestResult : Option EvalResult := none
deriving DecidableEq, Repr

/-- `testParameterSet(parameters, iteration)` with the simulated backtest
(`generateSimulatedScore`, driven by `Math.random` and `Math.sin`) abstracted
as the score oracle `score` — the spec treats the fitness evaluator as an
external collaborator. -/
def testParameterSet (score : ParamSet → ℕ → ℚ) (ps : ParamSet) (i : ℕ) :
    EvalResult :=
  { iteration := i, parameters := ps, score := score ps i }

/-- `updateBestResult(result)`: replace the best pointer only when there is no
best yet or the new score strictly exceeds it. -/
def updateBestResult (best : Option EvalResult) (r : EvalResult) :
    Option EvalResult :=
  match best with
  | none => some r
  | some b => if b.score < r.score then some r else some b

/-- `this.results.push(result); this.updateBestResult(result)` — the recording
step every phase performs after an evaluation. -/
def OptState.record (s : OptState) (r : EvalResult) : OptState :=
  { results := s.results ++ [r], bestResult := updateBestResult s.bestResult r }

/-- The comparator `(a, b) => b.score - a.score` orders `a` before `b` exactly
when `b.score ≤ a.score`; `Array.prototype.sort` is an in-place stable sort. -/
def sortByScoreDesc (l : List EvalResult) : List EvalResult :=
  l.mergeSort fun a b => decide (b.score ≤ a.score)

/-- `getTopResults(count)`: `this.results.sort(...).slice(0, count)`.
`Array.prototype.sort` sorts the `this.results` array **in place**, so the
query also replaces the log with its score-descending reordering; the new
state is returned alongside the slice. -/
def getTopResults (s : OptState) (count : ℕ) : List EvalResult × OptState :=
  let sorted := sortByScoreDesc s.results
  (sorted.take count, { s with results := sorted })

/-- `calculateImprovement()`: 0 for fewer than two results, otherwise
`((bestScore - firstScore) / firstScore) * 100` where `firstScore` is read
from `this.results[0]` **at the moment of the call**.  The `none` branch for
a missing best result is unreachable (the source would throw there). -/
def calculateImprovement (s : OptState) : JsNum :=
  if s.results.length < 2 then JsNum.fin 0
  else
    match s.results, s.bestResult with
    | first :: _, some best => jsMul100 (jsDiv (best.score - first.score) first.score)
    | _, _ => JsNum.fin 0

/-- The compiled run summary returned by `compileResults` (the wall-clock
`duration` field is real time and is not modelled).  The `summary` object is
inlined as the last four fields. -/
structure Compiled where
  success : Bool
  totalTests : ℕ
  bestResult : Option EvalResult
  topResults : List EvalResult
  bestScore : ℚ
  averageScore : JsNum
  improvement : JsNum
  parameters : ParamSet
deriving DecidableEq, Repr

/-- `compileResults()`, with the source's field evaluation order preserved:
`totalTests` and `bestResult` are read first, then `topResults` calls
`getTopResults(10)` (sorting `this.results` in place), and only then is the
summary — in particular `calculateImprovement()` — computed on the mutated
state. -/
def compileResults (s : OptState) : Compiled × OptState :=
  let totalTests := s.results.length
  let bestResult := s.bestResult
  let (top, s') := getTopResults s 10
  ({ success := true
     totalTests := totalTests
     bestResult := bestResult
     topResults := top
     bestScore := (s'.bestResult.map EvalResult.score).getD 0
     averageScore := jsDiv (s'.results.foldl (fun sum r => sum + r.score) 0)
       (s'.results.length : ℚ)
     improvement := calculateImprovement s'
     parameters := (s'.bestResult.map EvalResult.parameters).getD [] }, s')

/-- The payload `updateProgress` hands to the progress callback. -/
structure Progress where
  current : ℕ
  total : ℕ
  percentage : JsNum
  bestScore : ℚ
  resultsCount : ℕ
deriving Repr

/-- The `{current, total, percentage, bestScore, resultsCount}` object built
by `updateProgress`. -/
def mkProgress (s : OptState) (current total : ℕ) : Progress :=
  { current := current
    total := total
    percentage := jsRoundNum (jsMul100 (jsDiv (current : ℚ) (total : ℚ)))
    bestScore := (s.bestResult.map EvalResult.score).getD 0
    resultsCount := s.results.length }

/-- The evaluation loop shared by `basicOptimization` and the grid phases of
`standardOptimization`/`deepOptimization` (the source repeats the same loop):
for each remaining candidate, check `this.isOptimizing` (the `flag` stream,
read at the current result count) and break if cleared, otherwise evaluate
the candidate at loop index `i`, push the result and update the best pointer.
`updateProgress` and the pacing `delay` do not change the tracked state and
are omitted here (see `basicLoopE` for the fallible-callback embedding). -/
def gridLoop (flag : ℕ → Bool) (score : ParamSet → ℕ → ℚ) :
    List ParamSet → ℕ → OptState → OptState
  | [], _, s => s
  | ps :: rest, i, s =>
      if flag s.results.length then
        gridLoop flag score rest (i + 1) (s.record (testParameterSet score ps i))
      else s

/-- `basicOptimization(parameters, config)`: grid search over the basic-density
candidates, capped at `config.maxIterations`, then `compileResults()`. -/
def basicOptimization (σ : ℕ → ℚ) (flag : ℕ → Bool)
    (score : ParamSet → ℕ → ℚ) (params : List Param) (maxIterations : ℕ) :
    Compiled × OptState :=
  let parameterSets := generateParameterSets σ 0 params Density.basic
  let maxSets := min parameterSets.length maxIterations
  compileResults (gridLoop flag score (parameterSets.take maxSets) 0 {})

/-- `generateParameterVariations(param, currentValue)`: ±1 and ±2 `step`
perturbations, clamped to `[min, max]`, integer-rounded, and kept only when
different from the current value.  (The source computes an unused local
`range`; it is omitted.) -/
def generateParameterVariations (p : Param) (currentValue : ℚ) : List ℚ :=
  if p.type = PType.integer ∨ p.type = PType.float then
    let step := jsOrOne p.step
    ([-2, -1, 1, 2] : List ℤ).foldl
      (fun variations i =>
        let newValue := clampTo p (currentValue + step * i)
        let newValue :=
          if p.type = PType.integer then (jsRound newValue : ℚ) else newValue
        if newValue ≠ currentValue then variations ++ [newValue] else variations)
      []
  else []

/-- `removeDuplicateSets(sets)`: keep the first occurrence of each set
(`JSON.stringify` equality coincides with list equality here because every
set assigns keys in the same parameter order). -/
def removeDuplicateSets (sets : List ParamSet) : List ParamSet :=
  sets.foldl (fun unique s => if s ∈ unique then unique else unique ++ [s]) []

/-- `generateFineParameterSets(topResults, parameters)`: for each top result
and each parameter, recombine every variation of that parameter with the
result's other values, then drop duplicates. -/
def generateFineParameterSets (topResults : List EvalResult)
    (params : List Param) : List ParamSet :=
  removeDuplicateSets <|
    topResults.flatMap fun result =>
      params.flatMap fun p =>
        (generateParameterVariations p (getNum result.parameters p.name)).map
          fun variation => setKey result.parameters p.name (Value.num variation)

/-- The phase-2 loop of `standardOptimization`: like `gridLoop` but the
iteration number passed to `testParameterSet` is `this.results.length`. -/
def fineLoop (flag : ℕ → Bool) (score : ParamSet → ℕ → ℚ) :
    List ParamSet → OptState → OptState
  | [], s => s
  | ps :: rest, s =>
      if flag s.results.length then
        fineLoop flag score rest
          (s.record (testParameterSet score ps s.results.length))
      else s

/-- `standardOptimization(parameters, config)`: a coarse grid phase consuming
`Math.floor(maxIterations * 0.6)` iterations, then — if not cancelled and at
least one result exists — a refinement phase around `getTopResults(5)`
(which reorders the log in place) consuming the remaining budget, then
`compileResults()`. -/
def standardOptimization (σ : ℕ → ℚ) (flag : ℕ → Bool)
    (score : ParamSet → ℕ → ℚ) (params : List Param) (maxIterations : ℕ) :
    Compiled × OptState :=
  let parameterSets := generateParameterSets σ 0 params Density.coarse
  let max1 := min parameterSets.length (⌊(maxIterations : ℚ) * (6/10)⌋).toNat
  let s1 := gridLoop flag score (parameterSets.take max1) 0 {}
  let s2 :=
    if flag s1.results.length ∧ 0 < s1.results.length then
      let (topResults, s1') := getTopResults s1 5
      let fineParameterSets := generateFineParameterSets topResults params
      let remainingIterations := maxIterations - s1'.results.length
      let max2 := min fineParameterSets.length remainingIterations
      fineLoop flag score (fineParameterSets.take max2) s1'
    else s1
  compileResults s2

/-- A genetic-phase individual: `{genes, fitness}` with `fitness: null` for
"not yet evaluated". -/
structure Individual where
  genes : ParamSet
  fitness : Option ℚ
deriving DecidableEq, Repr

/-- The JavaScript truthiness test `!individual.fitness`: `null` and `0` are
both falsy, so a zero-fitness individual is re-evaluated. -/
def fitnessFalsy : Option ℚ → Bool
  | none => true
  | some q => decide (q = 0)

/-- `individual.fitness || 0` as used by the comparators. -/
def fitnessOr0 (i : Individual) : ℚ := i.fitness.getD 0

/-- `generateRandomValue(param)`: one `Math.random()` draw (at index `k`)
turned into a boolean coin flip, a uniform integer in `[min, max]`, or a
uniform float in `[min, max)`.  Returns the value and the next draw index. -/
def generateRandomValue (σ : ℕ → ℚ) (k : ℕ) (p : Param) : Value × ℕ :=
  match p.type with
  | PType.boolean => (Value.bool (decide (σ k < 1/2)), k + 1)
  | PType.integer => (Value.num ((⌊σ k * (p.max - p.min + 1)⌋ : ℚ) + p.min), k + 1)
  | PType.float => (Value.num (σ k * (p.max - p.min) + p.min), k + 1)

/-- The random-individual construction of `initializePopulation`:
`individual[param.name] = generateRandomValue(param)` for each parameter. -/
def randomIndividual (σ : ℕ → ℚ) (k : ℕ) (params : List Param) : ParamSet × ℕ :=
  params.foldl
    (fun (acc : ParamSet × ℕ) p =>
      let (v, k') := generateRandomValue σ acc.2 p
      (acc.1 ++ [(p.name, v)], k'))
    ([], k)

/-- The `while (population.length < size)` padding loop of
`initializePopulation`, with the number of missing individuals as fuel. -/
def padPopulation (σ : ℕ → ℚ) (params : List Param) :
    ℕ → ℕ → List Individual → List Individual × ℕ
  | 0, k, pop => (pop, k)
  | n + 1, k, pop =>
      let (genes, k') := randomIndividual σ k params
      padPopulation σ params n k' (pop ++ [{ genes := genes, fitness := none }])

/-- `initializePopulation(parameters, size)`: seed with `getTopResults(min 5
size)` (an in-place reordering of the log), then pad with random
individuals. -/
def initializePopulation (σ : ℕ → ℚ) (k : ℕ) (params : List Param) (size : ℕ)
    (s : OptState) : List Individual × OptState × ℕ :=
  let (topResults, s') := getTopResults s (min 5 size)
  let seeded := topResults.map fun r =>
    { genes := r.parameters, fitness := some r.score : Individual }
  let (pop, k') := padPopulation σ params (size - seeded.length) k seeded
  (pop, s', k')

/-- The default for a `population[index]` access; unreachable because the
random index is always in range for the non-empty populations the phase
builds. -/
def defaultIndividual : Individual := { genes := [], fitness := none }

/-- `selectParent(population)`: tournament of size 3 — one initial random
pick, then twice replace it by a random candidate with strictly larger
`fitness || 0`.  Consumes exactly three draws. -/
def selectParent (σ : ℕ → ℚ) (k : ℕ) (pop : List Individual) :
    Individual × ℕ :=
  let pick := fun j =>
    pop.getD (⌊σ j * (pop.length : ℚ)⌋).toNat defaultIndividual
  let best := pick k
  let best := if fitnessOr0 best < fitnessOr0 (pick (k + 1)) then pick (k + 1) else best
  let best := if fitnessOr0 best < fitnessOr0 (pick (k + 2)) then pick (k + 2) else best
  (best, k + 3)

/-- `parent.genes[param.name]` (present for every parameter in the
populations the phase builds; a missing key would be `undefined`). -/
def geneOf (genes : ParamSet) (n : String) : Value :=
  (genes.lookup n).getD (Value.num 0)

/-- `crossover(parent1, parent2, parameters)`: each parameter independently
inherited from parent 1 when its draw is below one half, else from parent 2. -/
def crossover (σ : ℕ → ℚ) (k : ℕ) (p1 p2 : Individual) (params : List Param) :
    ParamSet × ℕ :=
  params.foldl
    (fun (acc : ParamSet × ℕ) p =>
      let v := if σ acc.2 < 1/2 then geneOf p1.genes p.name else geneOf p2.genes p.name
      (acc.1 ++ [(p.name, v)], acc.2 + 1))
    ([], k)

/-- `mutate(individual, parameters)`: each parameter independently gets one
draw; only when that draw is below `0.1` is the parameter re-randomized by
`generateRandomValue`. -/
def mutate (σ : ℕ → ℚ) (k : ℕ) (individual : ParamSet) (params : List Param) :
    ParamSet × ℕ :=
  params.foldl
    (fun (acc : ParamSet × ℕ) p =>
      if σ acc.2 < 1/10 then
        let (v, k') := generateRandomValue σ (acc.2 + 1) p
        (setKey acc.1 p.name v, k')
      else (acc.1, acc.2 + 1))
    (individual, k)

/-- The offspring `while (newPopulation.length < population.length)` loop of
`evolvePopulation`, with the number of missing offspring as fuel: two
tournament selections, a crossover, and a `Math.random() < 0.1` mutation
gate. -/
def evolveFill (σ : ℕ → ℚ) (pop : List Individual) (params : List Param) :
    ℕ → ℕ → List Individual → List Individual × ℕ
  | 0, k, newPop => (newPop, k)
  | n + 1, k, newPop =>
      let (parent1, k1) := selectParent σ k pop
      let (parent2, k2) := selectParent σ k1 pop
      let (offspring, k3) := crossover σ k2 parent1 parent2 params
      let (offspring, k4) :=
        if σ k3 < 1/10 then mutate σ (k3 + 1) offspring params
        else (offspring, k3 + 1)
      evolveFill σ pop params n k4
        (newPop ++ [{ genes := offspring, fitness := none }])

/-- `evolvePopulation(population, parameters)`: stable in-place sort by
descending `fitness || 0` (so subsequent tournament selection draws from the
sorted array), keep the top 20% unchanged, and fill the rest with
offspring. -/
def evolvePopulation (σ : ℕ → ℚ) (k : ℕ) (population : List Individual)
    (params : List Param) : List Individual × ℕ :=
  let sorted := population.mergeSort fun a b =>
    decide (fitnessOr0 b ≤ fitnessOr0 a)
  let eliteCount := (⌊(population.length : ℚ) * (2/10)⌋).toNat
  evolveFill σ sorted params (population.length - eliteCount) k
    (sorted.take eliteCount)

/-- The per-generation evaluation loop of `geneticOptimization`: walk the
population, break on a cleared flag, and evaluate (at iteration index
`this.results.length`) every individual whose fitness is falsy, writing the
score back into the individual and recording the result. -/
def evalPopLoop (flag : ℕ → Bool) (score : ParamSet → ℕ → ℚ) :
    List Individual → List Individual → OptState → List Individual × OptState
  | [], acc, s => (acc, s)
  | ind :: rest, acc, s =>
      if flag s.results.length then
        if fitnessFalsy ind.fitness then
          let r := testParameterSet score ind.genes s.results.length
          evalPopLoop flag score rest (acc ++ [{ ind with fitness := some r.score }])
            (s.record r)
        else evalPopLoop flag score rest (acc ++ [ind]) s
      else (acc ++ ind :: rest, s)

/-- The generation loop of `geneticOptimization`: check the flag at each
generation boundary, evaluate the population, then evolve it (the evolution
still runs when the inner loop was cancelled mid-generation; the next
boundary check then exits). -/
def genLoop (σ : ℕ → ℚ) (flag : ℕ → Bool) (score : ParamSet → ℕ → ℚ)
    (params : List Param) :
    ℕ → List Individual → ℕ → OptState → OptState × List Individual × ℕ
  | 0, pop, k, s => (s, pop, k)
  | gen + 1, pop, k, s =>
      if flag s.results.length then
        let (pop', s') := evalPopLoop flag score pop [] s
        let (pop'', k') := evolvePopulation σ k pop' params
        genLoop σ flag score params gen pop'' k' s'
      else (s, pop, k)

/-- `geneticOptimization(parameters, iterations)`: population size
`clamp(⌊iterations/5⌋, 10, 20)`, `⌊iterations/populationSize⌋` generations. -/
def geneticOptimization (σ : ℕ → ℚ) (k : ℕ) (flag : ℕ → Bool)
    (score : ParamSet → ℕ → ℚ) (params : List Param) (iterations : ℕ)
    (s : OptState) : OptState × ℕ :=
  let populationSize := min 20 (max 10 (iterations / 5))
  let (population, s', k') := initializePopulation σ k params populationSize s
  let generations := iterations / populationSize
  let (s'', _, k'') := genLoop σ flag score params generations population k' s'
  (s'', k'')

/-- `generateNeighbors(parameters, param)`: perturb one parameter by
`{-2, -1, +1, +2}` step units, clamped and integer-rounded, skipping
perturbations that collapse to the current value. -/
def generateNeighbors (ps : ParamSet) (p : Param) : List ParamSet :=
  if p.type = PType.integer ∨ p.type = PType.float then
    let currentValue := getNum ps p.name
    let step := jsOrOne p.step
    ([-2, -1, 1, 2] : List ℤ).foldl
      (fun neighbors mult =>
        let newValue := clampTo p (currentValue + step * mult)
        let newValue :=
          if p.type = PType.integer then (jsRound newValue : ℚ) else newValue
        if newValue ≠ currentValue then
          neighbors ++ [setKey ps p.name (Value.num newValue)]
        else neighbors)
      []
  else []

/-- The mutable locals of `localSearchOptimization`. -/
structure LsState where
  currentBest : EvalResult
  iteration : ℕ
  improved : Bool
  s : OptState
deriving Repr

/-- The neighbor loop of `localSearchOptimization`: break when cancelled or
out of budget; otherwise evaluate the neighbor, push it, count the
iteration, and on strict improvement re-anchor `currentBest`, set
`improved`, and update the best pointer (non-improving results are pushed
but do **not** go through `updateBestResult`). -/
def lsNeighborLoop (flag : ℕ → Bool) (score : ParamSet → ℕ → ℚ)
    (iterations : ℕ) : List ParamSet → LsState → LsState
  | [], t => t
  | neighbor :: rest, t =>
      if ¬flag t.s.results.length ∨ iterations ≤ t.iteration then t
      else
        let r := testParameterSet score neighbor t.s.results.length
        let s1 : OptState := { t.s with results := t.s.results ++ [r] }
        if t.currentBest.score < r.score then
          lsNeighborLoop flag score iterations rest
            { currentBest := r, iteration := t.iteration + 1, improved := true,
              s := { s1 with bestResult := updateBestResult s1.bestResult r } }
        else
          lsNeighborLoop flag score iterations rest
            { t with iteration := t.iteration + 1, s := s1 }

/-- The `for (const param of parameters)` loop of one hill-climbing round. -/
def lsParamLoop (flag : ℕ → Bool) (score : ParamSet → ℕ → ℚ)
    (iterations : ℕ) : List Param → LsState → LsState
  | [], t => t
  | p :: rest, t =>
      if ¬flag t.s.results.length ∨ iterations ≤ t.iteration then t
      else
        lsParamLoop flag score iterations rest
          (lsNeighborLoop flag score iterations
            (generateNeighbors t.currentBest.parameters p) t)

/-- The `while (improved && iteration < iterations && this.isOptimizing)`
loop, with explicit fuel (each executed round either finds no improvement —
terminating the loop — or raises `iteration`, so `iterations + 2` rounds of
fuel never run out; see `lsWhile_fuel_sufficient`). -/
def lsWhile (flag : ℕ → Bool) (score : ParamSet → ℕ → ℚ) (iterations : ℕ)
    (params : List Param) : ℕ → LsState → OptState
  | 0, t => t.s
  | fuel + 1, t =>
      if t.improved ∧ t.iteration < iterations ∧ flag t.s.results.length then
        lsWhile flag score iterations params fuel
          (lsParamLoop flag score iterations params { t with improved := false })
      else t.s

/-- `localSearchOptimization(parameters, iterations)`: hill-climbing seeded at
a copy of `this.bestResult`. -/
def localSearchOptimization (flag : ℕ → Bool) (score : ParamSet → ℕ → ℚ)
    (params : List Param) (iterations : ℕ) (best : EvalResult) (s : OptState) :
    OptState :=
  lsWhile flag score iterations params (iterations + 2)
    { currentBest := best, iteration := 0, improved := true, s := s }

/-- `deepOptimization(parameters, config)`: a coarse grid phase on 30% of the
budget, a genetic phase on 40% (entered only with a live flag and a
non-empty log), and a final local-search phase absorbing the remaining
budget (entered only with a live flag and a best result), then
`compileResults()`.  The single `Math.random` stream is split into the
shuffle oracle `σ` and the genetic-phase oracle `σg`; this is harmless
because every statement quantifies over both. -/
def deepOptimization (σ σg : ℕ → ℚ) (flag : ℕ → Bool)
    (score : ParamSet → ℕ → ℚ) (params : List Param) (maxIterations : ℕ) :
    Compiled × OptState :=
  let parameterSets := generateParameterSets σ 0 params Density.coarse
  let max1 := min parameterSets.length (⌊(maxIterations : ℚ) * (3/10)⌋).toNat
  let s1 := gridLoop flag score (parameterSets.take max1) 0 {}
  let s2 :=
    if flag s1.results.length ∧ 0 < s1.results.length then
      (geneticOptimization σg 0 flag score params
        (⌊(maxIterations : ℚ) * (4/10)⌋).toNat s1).1
    else s1
  let s3 :=
    match s2.bestResult with
    | some best =>
        if flag s2.results.length then
          localSearchOptimization flag score params
            (maxIterations - s2.results.length) best s2
        else s2
    | none => s2
  compileResults s3

/-- `updateProgress(current, total)` with the registered callback made
explicit: no callback is a no-op; a registered callback runs and may throw
(the source wraps it in no `try`/`catch`). -/
def updateProgressE {ε : Type} (cb : Option (Progress → Except ε Unit))
    (pr : Progress) : Except ε Unit :=
  match cb with
  | none => Except.ok ()
  | some f => f pr

/-- `basicOptimization`'s loop with the progress callback's possible exception
made explicit: after recording each result, `updateProgress(i + 1, maxSets)`
runs, and an exception it throws propagates out of the loop (aborting the
run through `optimize`'s `catch`/rethrow). -/
def basicLoopE {ε : Type} (cb : Option (Progress → Except ε Unit))
    (flag : ℕ → Bool) (score : ParamSet → ℕ → ℚ) (total : ℕ) :
    List ParamSet → ℕ → OptState → Except ε OptState
  | [], _, s => Except.ok s
  | ps :: rest, i, s =>
      if flag s.results.length then
        let s' := s.record (testParameterSet score ps i)
        match updateProgressE cb (mkProgress s' (i + 1) total) with
        | Except.ok _ => basicLoopE cb flag score total rest (i + 1) s'
        | Except.error e => Except.error e
      else Except.ok s

/-- `basicOptimization` with the fallible progress callback: the compiled
summary is produced only if no callback invocation throws. -/
def basicOptimizationE {ε : Type} (σ : ℕ → ℚ) (flag : ℕ → Bool)
    (score : ParamSet → ℕ → ℚ) (cb : Option (Progress → Except ε Unit))
    (params : List Param) (maxIterations : ℕ) :
    Except ε (Compiled × OptState) :=
  let parameterSets := generateParameterSets σ 0 params Density.basic
  let maxSets := min parameterSets.length maxIterations
  match basicLoopE cb flag score maxSets (parameterSets.take maxSets) 0 {} with
  | Except.ok s => Except.ok (compileResults s)
  | Except.error e => Except.error e

/-- The sequence of evaluation results the evaluator produces for a candidate
list starting at iteration index `i` (used to state what a run records). -/
def evalRun (score : ParamSet → ℕ → ℚ) : List ParamSet → ℕ → List EvalResult
  | [], _ => []
  | ps :: rest, i => testParameterSet score ps i :: evalRun score rest (i + 1)

/-- Modelled from the spec: the claimed mutation semantics, for comparison
with the source's `mutate` — "a 10% per-offspring mutation probability
that, when triggered, re-randomizes every parameter of that offspring (not
a single gene) within its bounds", i.e. a triggered mutation draws a fresh
`generateRandomValue` for **every** parameter unconditionally. -/
def mutateSpec (σ : ℕ → ℚ) (k : ℕ) (individual : ParamSet)
    (params : List Param) : ParamSet × ℕ :=
  params.foldl
    (fun (acc : ParamSet × ℕ) p =>
      let (v, k') := generateRandomValue σ acc.2 p
      (setKey acc.1 p.name v, k'))
    (individual, k)

/-- The state reached after recording a sequence of evaluation results (in
completion order) from the fresh state `optimize()` starts a run with. -/
def runRecord (rs : List EvalResult) : OptState :=
  rs.foldl OptState.record {}

/-! ## Supporting lemmas -/

theorem runRecord_append (rs : List EvalResult) (r : EvalResult) :
    runRecord (rs ++ [r]) = (runRecord rs).record r := by
  simp [runRecord, List.foldl_append]

theorem runRecord_results (rs : List EvalResult) : (runRecord rs).results = rs := by
  induction rs using List.reverseRecOn with
  | nil => rfl
  | append_singleton rs r ih => simp [runRecord_append, OptState.record, ih]

theorem runRecord_best_spec (rs : List EvalResult) (hne : rs ≠ []) :
    ∃ i, ∃ hi : i < rs.length,
      (runRecord rs).bestResult = some rs[i] ∧
      (∀ r ∈ rs, r.score ≤ rs[i].score) ∧
      ∀ j, ∀ hj : j < rs.length, j < i → rs[j].score < rs[i].score := by
  induction rs using List.reverseRecOn with
  | nil => exact absurd rfl hne
  | append_singleton rs r ih =>
    rcases eq_or_ne rs [] with rfl | hrs
    · refine ⟨0, by simp, ?_, ?_, ?_⟩
      · simp [runRecord, OptState.record, updateBestResult]
      · intro x hx
        simp only [List.nil_append, List.mem_singleton] at hx
        subst hx
        simp
      · intro j hj hji
        omega
    · obtain ⟨i, hi, hbest, hub, hlt⟩ := ih hrs
      rw [runRecord_append]
      by_cases hcmp : rs[i].score < r.score
      · refine ⟨rs.length, by simp, ?_, ?_, ?_⟩
        · simp [OptState.record, hbest, updateBestResult, hcmp]
        · intro x hx
          simp only [List.getElem_concat_length]
          rcases List.mem_append.1 hx with hx | hx
          · exact le_trans (hub x hx) (le_of_lt hcmp)
          · simp only [List.mem_singleton] at hx
            subst hx
            exact le_refl _
        · intro j hj hji
          rw [List.getElem_append_left hji]
          simp only [List.getElem_concat_length]
          exact lt_of_le_of_lt (hub _ (List.getElem_mem hji)) hcmp
      · have hi' : i < (rs ++ [r]).length := by simp; omega
        refine ⟨i, hi', ?_, ?_, ?_⟩
        · rw [List.getElem_append_left hi]
          simp [OptState.record, hbest, updateBestResult, hcmp]
        · intro x hx
          rw [List.getElem_append_left hi]
          rcases List.mem_append.1 hx with hx | hx
          · exact hub x hx
          · simp only [List.mem_singleton] at hx
            subst hx
            exact le_of_not_lt hcmp
        · intro j hj hji
          have hjr : j < rs.length := lt_of_lt_of_le hji (le_of_lt hi)
          rw [List.getElem_append_left hjr, List.getElem_append_left hi]
          exact hlt j hjr hji

/-! ## C3 — monotonic best pointer, updated on strict improvement only -/

/-- **C3.** For every run, as evaluations are recorded in completion order the
best pointer's score never decreases, and after any non-empty prefix the
pointer designates the earliest recorded result attaining the maximum score
seen so far (so ties never displace the earlier holder). -/
theorem bestResult_monotone_earliest_max (rs : List EvalResult) :
    (∀ k b b', (runRecord (rs.take k)).bestResult = some b →
        (runRecord (rs.take (k + 1))).bestResult = some b' → b.score ≤ b'.score) ∧
    (rs ≠ [] → ∃ i, ∃ hi : i < rs.length,
        (runRecord rs).bestResult = some rs[i] ∧
        (∀ r ∈ rs, r.score ≤ rs[i].score) ∧
        ∀ j, ∀ hj : j < rs.length, j < i → rs[j].score < rs[i].score) := by
  refine ⟨?_, runRecord_best_spec rs⟩
  intro k b b' hb hb'
  by_cases hk : rs.length ≤ k
  · rw [List.take_of_length_le hk] at hb
    rw [List.take_of_length_le (le_trans hk (Nat.le_succ k))] at hb'
    rw [hb] at hb'
    cases hb'
    exact le_refl _
  · push_neg at hk
    have htake : rs.take (k + 1) = rs.take k ++ [rs[k]] := by
      rw [← List.take_concat_get rs k hk, List.concat_eq_append]
    rw [htake, runRecord_append] at hb'
    simp only [OptState.record, hb, updateBestResult] at hb'
    by_cases hcmp : b.score < rs[k].score
    · simp only [hcmp, if_true] at hb'
      cases hb'
      exact le_of_lt hcmp
    · simp only [hcmp, if_false] at hb'
      cases hb'
      exact le_refl _

/-- Witness for C3 at a concrete two-evaluation run (scores 5 then 7). -/
theorem bestResult_monotone_earliest_max_witness :
    (∀ k b b',
        (runRecord (([⟨0, [], 5⟩, ⟨1, [], 7⟩] : List EvalResult).take k)).bestResult = some b →
        (runRecord (([⟨0, [], 5⟩, ⟨1, [], 7⟩] : List EvalResult).take (k + 1))).bestResult = some b' →
        b.score ≤ b'.score) ∧
    (∃ i, ∃ hi : i < ([⟨0, [], 5⟩, ⟨1, [], 7⟩] : List EvalResult).length,
        (runRecord [⟨0, [], 5⟩, ⟨1, [], 7⟩]).bestResult =
          some (([⟨0, [], 5⟩, ⟨1, [], 7⟩] : List EvalResult)[i]) ∧
        (∀ r ∈ ([⟨0, [], 5⟩, ⟨1, [], 7⟩] : List EvalResult),
          r.score ≤ (([⟨0, [], 5⟩, ⟨1, [], 7⟩] : List EvalResult)[i]).score) ∧
        ∀ j, ∀ hj : j < ([⟨0, [], 5⟩, ⟨1, [], 7⟩] : List EvalResult).length, j < i →
          (([⟨0, [], 5⟩, ⟨1, [], 7⟩] : List EvalResult)[j]).score <
            (([⟨0, [], 5⟩, ⟨1, [], 7⟩] : List EvalResult)[i]).score) :=
  ⟨(bestResult_monotone_earliest_max _).1,
    (bestResult_monotone_earliest_max _).2 (by simp)⟩

/-! ## C10 — compiling a run with zero recorded evaluations -/

/-- **C10.** Compiling a run that recorded no evaluations still reports
`success = true`, but `averageScore` is the unguarded `0 / 0` (`NaN`), while
`bestScore` defaults to `0`, the best parameter set to the empty mapping,
`improvement` to `0`, and the top-results slice is empty. -/
theorem compileResults_empty_run (s : OptState) (h1 : s.results = [])
    (h2 : s.bestResult = none) :
    (compileResults s).1 =
      { success := true, totalTests := 0, bestResult := none, topResults := [],
        bestScore := 0, averageScore := JsNum.nan, improvement := JsNum.fin 0,
        parameters := [] } := by
  obtain ⟨res, best⟩ := s
  simp only at h1 h2
  subst h1; subst h2
  simp [compileResults, getTopResults, sortByScoreDesc, calculateImprovement, jsDiv]

/-- Witness for C10 at the concrete fresh state. -/
theorem compileResults_empty_run_witness :
    (compileResults { results := [], bestResult := none }).1 =
      { success := true, totalTests := 0, bestResult := none, topResults := [],
        bestScore := 0, averageScore := JsNum.nan, improvement := JsNum.fin 0,
        parameters := [] } :=
  compileResults_empty_run _ rfl rfl

/-! ## C2 — `getTopResults` reorders the results log in place -/

/-- **C2 counterexample / code behavior.** Querying the top result of a log
holding two results with scores 1 then 2 replaces the log by its
score-descending reordering: the completion order is destroyed (the
elements themselves survive as a multiset — the reordering is a
permutation, see `getTopResults_perm`). -/
theorem getTopResults_mutates_log :
    (getTopResults ⟨[⟨0, [], 1⟩, ⟨1, [], 2⟩], some ⟨1, [], 2⟩⟩ 1).2.results =
      [⟨1, [], 2⟩, ⟨0, [], 1⟩] ∧
    ([⟨1, [], 2⟩, ⟨0, [], 1⟩] : List EvalResult) ≠ [⟨0, [], 1⟩, ⟨1, [], 2⟩] := by
  constructor
  · norm_num [getTopResults, sortByScoreDesc, List.mergeSort, List.splitInTwo,
      List.splitAt, List.splitAt.go, List.merge]
  · simp

/-- The in-place sort inside `getTopResults` permutes the log (elements are
preserved as a multiset even though completion order is not). -/
theorem getTopResults_perm (s : OptState) (count : ℕ) :
    (getTopResults s count).2.results.Perm s.results :=
  List.mergeSort_perm s.results _

/-! ## C1 — the improvement field of the compiled summary -/

/-- **C1 code behavior at the failing input.**  A basic run over the single
integer parameter `length ∈ [5, 50]` with budget 2 records two evaluations
scoring 10 then 20, so by the claim the summary's improvement should be
`((20 - 10) / 10) * 100 = 100`.  The code instead reports `0`: inside
`compileResults` the `topResults` field calls `getTopResults(10)`, whose
in-place sort reorders `this.results` descending by score *before*
`calculateImprovement()` reads `this.results[0]` as the "first" score — so
the "first" score it sees is the best score, and the quotient vanishes. -/
theorem compileResults_improvement_zero_at_failing_input :
    (basicOptimization (fun _ => 0) (fun _ => true)
        (fun _ i => if i = 0 then 10 else 20)
        [⟨"length", PType.integer, 5, 50, some 1, Value.num 14⟩] 2).1.improvement =
      JsNum.fin 0 ∧
    ((20 - 10 : ℚ) / 10) * 100 = 100 ∧
    JsNum.fin 0 ≠ JsNum.fin (100 : ℚ) := by
  refine ⟨?_, by norm_num, by simp⟩
  have hsteps : generateParameterSteps ⟨"length", PType.integer, 5, 50, some 1, Value.num 14⟩ 3 =
      [Value.num 5, Value.num 28, Value.num 50] := by
    norm_num [generateParameterSteps, numericSteps, numericStepValue, jsRound, List.range_succ]
  have hcomb : genComb (fun p => generateParameterSteps p (densitySteps Density.basic))
      [⟨"length", PType.integer, 5, 50, some 1, Value.num 14⟩] [] [] =
      [[("length", Value.num 5)], [("length", Value.num 28)], [("length", Value.num 50)]] := by
    rw [genComb]
    simp only [densitySteps, hsteps]
    rw [genComb.genStepsLoop]
    norm_num [genComb, genComb.genStepsLoop]
  have hsets : generateParameterSets (fun _ => 0) 0
      [⟨"length", PType.integer, 5, 50, some 1, Value.num 14⟩] Density.basic =
      [[("length", Value.num 28)], [("length", Value.num 50)], [("length", Value.num 5)]] := by
    rw [generateParameterSets, hcomb]
    norm_num [shuffleArray, shuffleGo, listSwap]
  rw [basicOptimization, hsets]
  norm_num [gridLoop, OptState.record, testParameterSet, updateBestResult,
    compileResults, getTopResults, sortByScoreDesc, List.mergeSort, List.splitInTwo,
    List.splitAt, List.splitAt.go, List.merge, calculateImprovement, jsDiv, jsMul100]

/-! ## The candidate generator: cap and shuffle -/

theorem genStepsLoop_eq_take (body : Value → List ParamSet → List ParamSet)
    (g : Value → List ParamSet)
    (hbody : ∀ v sets, sets.length < 10000 →
      body v sets = (sets ++ g v).take 10000) :
    ∀ (vs : List Value) (sets : List ParamSet), sets.length < 10000 →
      genComb.genStepsLoop body vs sets = (sets ++ vs.flatMap g).take 10000 := by
  intro vs
  induction vs with
  | nil =>
      intro sets hlen
      rw [genComb.genStepsLoop]
      simp [List.take_of_length_le (le_of_lt hlen)]
  | cons v vs ih =>
      intro sets hlen
      rw [genComb.genStepsLoop]
      simp only [hbody v sets hlen]
      by_cases h10 : 10000 ≤ ((sets ++ g v).take 10000).length
      · rw [if_pos h10]
        have hlen2 : 10000 ≤ (sets ++ g v).length := by
          simp only [List.length_take] at h10
          omega
        rw [List.flatMap_cons, ← List.append_assoc]
        conv_rhs => rw [List.take_append_eq_append_take,
          Nat.sub_eq_zero_of_le hlen2, List.take_zero, List.append_nil]
      · rw [if_neg h10]
        have hlt : (sets ++ g v).length < 10000 := by
          simp only [List.length_take] at h10
          omega
        rw [List.take_of_length_le (le_of_lt hlt), ih _ hlt, List.flatMap_cons,
          List.append_assoc]

theorem genComb_eq_take (stepsOf : Param → List Value) :
    ∀ (params : List Param) (current : ParamSet) (sets : List ParamSet),
      sets.length < 10000 →
      genComb stepsOf params current sets =
        (sets ++ genAll stepsOf params current).take 10000 := by
  intro params
  induction params with
  | nil =>
      intro current sets hlen
      rw [genComb, genAll]
      exact (List.take_of_length_le (by simp; omega)).symm
  | cons p rest ih =>
      intro current sets hlen
      rw [genComb, genAll]
      exact genStepsLoop_eq_take _ _
        (fun v s h => ih (current ++ [(p.name, v)]) s h) (stepsOf p) sets hlen

theorem generateParameterSets_eq_shuffled_take (σ : ℕ → ℚ) (k : ℕ)
    (params : List Param) (density : Density) :
    generateParameterSets σ k params density =
      shuffleArray σ k
        ((genAll (fun p => generateParameterSteps p (densitySteps density))
          params []).take 10000) := by
  rw [generateParameterSets, genComb_eq_take _ _ _ _ (by norm_num)]
  simp

theorem cons_set_perm {α : Type} :
    ∀ (l : List α) (n : ℕ) (a b : α), l.get? n = some b →
      (b :: l.set n a).Perm (a :: l) := by
  intro l
  induction l with
  | nil => intro n a b h; simp at h
  | cons x t ih =>
      intro n a b h
      cases n with
      | zero =>
          simp only [List.get?_cons_zero, Option.some.injEq] at h
          subst h
          simpa using List.Perm.swap a x t
      | succ n =>
          simp only [List.get?_cons_succ] at h
          have h1 : (x :: t).set (n + 1) a = x :: t.set n a := rfl
          rw [h1]
          exact ((List.Perm.swap x b (t.set n a)).trans
            ((ih n a b h).cons x)).trans (List.Perm.swap a x t)

theorem set_set_perm {α : Type} :
    ∀ (l : List α) (i j : ℕ) (a b : α), l.get? i = some a → l.get? j = some b →
      ((l.set i b).set j a).Perm l := by
  intro l
  induction l with
  | nil => intro i j a b hi _; simp at hi
  | cons x t ih =>
      intro i j a b hi hj
      cases i with
      | zero =>
          simp only [List.get?_cons_zero, Option.some.injEq] at hi
          subst hi
          cases j with
          | zero =>
              simp only [List.get?_cons_zero, Option.some.injEq] at hj
              subst hj
              simp
          | succ j =>
              simp only [List.get?_cons_succ] at hj
              simpa using cons_set_perm t j x b hj
      | succ i =>
          simp only [List.get?_cons_succ] at hi
          cases j with
          | zero =>
              simp only [List.get?_cons_zero, Option.some.injEq] at hj
              subst hj
              simpa using cons_set_perm t i x a hi
          | succ j =>
              simp only [List.get?_cons_succ] at hj
              simpa using (ih i j a b hi hj).cons x

theorem listSwap_perm {α : Type} (l : List α) (i j : ℕ) :
    (listSwap l i j).Perm l := by
  unfold listSwap
  rcases hi : l.get? i with _ | a <;> rcases hj : l.get? j with _ | b <;>
    first
      | exact List.Perm.refl _
      | exact set_set_perm l i j a b hi hj

theorem shuffleGo_perm {α : Type} (σ : ℕ → ℚ) :
    ∀ (i k : ℕ) (l : List α), (shuffleGo σ i k l).Perm l := by
  intro i
  induction i with
  | zero => intro k l; exact List.Perm.refl _
  | succ i ih =>
      intro k l
      exact (ih (k + 1) _).trans (listSwap_perm l (i + 1) _)

theorem shuffleArray_perm {α : Type} (σ : ℕ → ℚ) (k : ℕ) (l : List α) :
    (shuffleArray σ k l).Perm l :=
  shuffleGo_perm σ (l.length - 1) k l

/-! ## C6 — the 10,000-candidate ceiling -/

/-- **C6.** For every input the candidate generator returns at most 10,000
parameter sets; the capped enumeration is exactly the 10,000-element prefix
of the full Cartesian-product enumeration — generation aborts with whatever
has been produced the moment the accumulator reaches the ceiling, regardless
of dimensionality. -/
theorem generator_capped_at_10000 (σ : ℕ → ℚ) (k : ℕ) (params : List Param)
    (density : Density) :
    (generateParameterSets σ k params density).length ≤ 10000 ∧
    genComb (fun p => generateParameterSteps p (densitySteps density)) params [] [] =
      (genAll (fun p => generateParameterSteps p (densitySteps density))
        params []).take 10000 := by
  constructor
  · rw [generateParameterSets_eq_shuffled_take,
      (shuffleArray_perm σ k _).length_eq]
    exact List.length_take_le _ _
  · have h := genComb_eq_take
      (fun p => generateParameterSteps p (densitySteps density)) params []
      [] (by norm_num)
    simpa using h

/-! ## The candidate generator: structure of the produced sets -/

theorem numericSteps_nodup (p : Param) (sc : ℕ) : (numericSteps p sc).Nodup := by
  rw [numericSteps]
  have H : ∀ (l : List ℕ) (acc : List ℚ), acc.Nodup →
      (l.foldl (fun steps i =>
        let v := numericStepValue p sc i
        if v ∈ steps then steps else steps ++ [v]) acc).Nodup := by
    intro l
    induction l with
    | nil => intro acc h; exact h
    | cons i l ih =>
        intro acc h
        simp only [List.foldl_cons]
        by_cases hv : numericStepValue p sc i ∈ acc
        · simpa [hv] using ih acc h
        · refine ih _ ?_
          simp [List.nodup_append, h, hv]
  exact H _ [] List.nodup_nil

theorem mem_numericSteps (p : Param) (sc : ℕ) :
    ∀ v ∈ numericSteps p sc, ∃ i, i < sc ∧ v = numericStepValue p sc i := by
  rw [numericSteps]
  have H : ∀ (l : List ℕ) (acc : List ℚ),
      (∀ i ∈ l, i < sc) →
      (∀ v ∈ acc, ∃ i, i < sc ∧ v = numericStepValue p sc i) →
      ∀ v ∈ (l.foldl (fun steps i =>
        let v := numericStepValue p sc i
        if v ∈ steps then steps else steps ++ [v]) acc),
        ∃ i, i < sc ∧ v = numericStepValue p sc i := by
    intro l
    induction l with
    | nil => intro acc _ hacc; exact hacc
    | cons i l ih =>
        intro acc hl hacc
        simp only [List.foldl_cons]
        refine ih _ (fun j hj => hl j (List.mem_cons_of_mem i hj)) ?_
        intro v hv
        by_cases hmem : numericStepValue p sc i ∈ acc
        · exact hacc v (by simpa [hmem] using hv)
        · simp only [hmem, if_false, List.mem_append, List.mem_singleton] at hv
          rcases hv with hv | rfl
          · exact hacc v hv
          · exact ⟨i, hl i (List.mem_cons_self i l), rfl⟩
  intro v hv
  exact H _ [] (fun i hi => List.mem_range.1 hi) (by simp) v hv

theorem generateParameterSteps_nodup (p : Param) (sc : ℕ) :
    (generateParameterSteps p sc).Nodup := by
  rw [generateParameterSteps]
  cases p.type with
  | boolean => simp
  | integer =>
      exact (numericSteps_nodup p sc).map fun a b h => by
        cases h; rfl
  | float =>
      exact (numericSteps_nodup p sc).map fun a b h => by
        cases h; rfl

theorem mem_genAll (stepsOf : Param → List Value) :
    ∀ (params : List Param) (cur : ParamSet) (x : ParamSet),
      x ∈ genAll stepsOf params cur ↔
        ∃ t, x = cur ++ t ∧
          List.Forall₂ (fun p (nv : String × Value) =>
            nv.1 = p.name ∧ nv.2 ∈ stepsOf p) params t := by
  intro params
  induction params with
  | nil =>
      intro cur x
      rw [genAll]
      simp [List.forall₂_nil_left_iff]
  | cons p rest ih =>
      intro cur x
      rw [genAll]
      simp only [List.mem_flatMap]
      constructor
      · rintro ⟨v, hv, hx⟩
        obtain ⟨t, rfl, ht⟩ := (ih _ x).1 hx
        exact ⟨(p.name, v) :: t, by simp, List.Forall₂.cons ⟨rfl, hv⟩ ht⟩
      · rintro ⟨t, rfl, ht⟩
        cases ht with
        | cons hR ht' =>
            rename_i nv t'
            obtain ⟨hn, hv⟩ := hR
            refine ⟨nv.2, hv, (ih (cur ++ [(p.name, nv.2)]) _).2 ⟨t', ?_, ht'⟩⟩
            have : nv = (p.name, nv.2) := by
              cases nv
              simp only at hn
              simp [hn]
            rw [this]
            simp

theorem genAll_nodup (stepsOf : Param → List Value)
    (hsteps : ∀ p, (stepsOf p).Nodup) :
    ∀ (params : List Param) (cur : ParamSet),
      (genAll stepsOf params cur).Nodup := by
  intro params
  induction params with
  | nil => intro cur; rw [genAll]; simp
  | cons p rest ih =>
      intro cur
      rw [genAll, List.nodup_flatMap]
      refine ⟨fun v _ => ih _, ?_⟩
      refine List.Pairwise.imp ?_ (hsteps p)
      intro v v' hne x hx hx'
      obtain ⟨t, hxt, _⟩ := (mem_genAll stepsOf rest _ x).1 hx
      obtain ⟨t', hxt', _⟩ := (mem_genAll stepsOf rest _ x).1 hx'
      rw [hxt] at hxt'
      simp only [List.append_assoc, List.singleton_append] at hxt'
      have := List.append_cancel_left hxt'
      simp only [List.cons.injEq, Prod.mk.injEq] at this
      exact hne this.1.2

/-! ## C5 — structure of the generated candidate collection -/

/-- **C5 counterexample.**  An integer parameter with non-integer bounds
`min = 2/5 ≤ max = 3/5` and positive step satisfies the claim's hypotheses,
yet rounding pushes the sampled values `0` and `1` outside `[min, max]`:
the generator emits the candidate `{x: 0}` although `¬(2/5 ≤ 0)`. -/
theorem integer_rounding_escapes_bounds_counterexample :
    ((2 : ℚ)/5 ≤ 3/5 ∧ (0 : ℚ) < 1) ∧
    generateParameterSets (fun _ => 0) 0
      [⟨"x", PType.integer, 2/5, 3/5, some 1, Value.num 0⟩] Density.basic =
      [[("x", Value.num 1)], [("x", Value.num 0)]] ∧
    ¬((2 : ℚ)/5 ≤ 0) := by
  refine ⟨by norm_num, ?_, by norm_num⟩
  have hsteps : generateParameterSteps ⟨"x", PType.integer, 2/5, 3/5, some 1, Value.num 0⟩ 3 =
      [Value.num 0, Value.num 1] := by
    norm_num [generateParameterSteps, numericSteps, numericStepValue, jsRound,
      List.range_succ]
  have hcomb : genComb (fun p => generateParameterSteps p (densitySteps Density.basic))
      [⟨"x", PType.integer, 2/5, 3/5, some 1, Value.num 0⟩] [] [] =
      [[("x", Value.num 0)], [("x", Value.num 1)]] := by
    rw [genComb]
    simp only [densitySteps, hsteps]
    rw [genComb.genStepsLoop]
    norm_num [genComb, genComb.genStepsLoop]
  rw [generateParameterSets, hcomb]
  norm_num [shuffleArray, shuffleGo, listSwap]

theorem rawStep_bounds (p : Param) (sc i : ℕ) (hminmax : p.min ≤ p.max)
    (hsc : 2 ≤ sc) (hi : i < sc) :
    p.min ≤ p.min + (p.max - p.min) / ((sc : ℚ) - 1) * i ∧
    p.min + (p.max - p.min) / ((sc : ℚ) - 1) * i ≤ p.max := by
  have hsc1 : (1 : ℚ) ≤ (sc : ℚ) - 1 := by
    have : (2 : ℚ) ≤ (sc : ℚ) := by exact_mod_cast hsc
    linarith
  have hd : 0 ≤ (p.max - p.min) / ((sc : ℚ) - 1) :=
    div_nonneg (by linarith) (by linarith)
  constructor
  · have := mul_nonneg hd (Nat.cast_nonneg i)
    linarith
  · have hile : (i : ℚ) ≤ (sc : ℚ) - 1 := by
      have : (i : ℚ) + 1 ≤ (sc : ℚ) := by exact_mod_cast hi
      linarith
    have h1 : (p.max - p.min) / ((sc : ℚ) - 1) * i ≤
        (p.max - p.min) / ((sc : ℚ) - 1) * ((sc : ℚ) - 1) :=
      mul_le_mul_of_nonneg_left hile hd
    have h2 : (p.max - p.min) / ((sc : ℚ) - 1) * ((sc : ℚ) - 1) = p.max - p.min :=
      div_mul_cancel₀ _ (by linarith)
    linarith

theorem numericStepValue_bounds (p : Param) (sc i : ℕ) (hminmax : p.min ≤ p.max)
    (hsc : 2 ≤ sc) (hi : i < sc)
    (hint : p.type = PType.integer → (∃ a : ℤ, p.min = a) ∧ ∃ b : ℤ, p.max = b) :
    p.min ≤ numericStepValue p sc i ∧ numericStepValue p sc i ≤ p.max ∧
    (p.type = PType.integer → ∃ z : ℤ, numericStepValue p sc i = z) := by
  obtain ⟨hlow, hhigh⟩ := rawStep_bounds p sc i hminmax hsc hi
  rw [numericStepValue]
  by_cases htype : p.type = PType.integer
  · obtain ⟨⟨a, ha⟩, ⟨b, hb⟩⟩ := hint htype
    simp only [htype, if_true, jsRound]
    have hlow' : (a : ℚ) ≤ p.min + (p.max - p.min) / ((sc : ℚ) - 1) * i := by
      rw [← ha]; exact hlow
    have hhigh' : p.min + (p.max - p.min) / ((sc : ℚ) - 1) * i ≤ (b : ℚ) := by
      rw [← hb]; exact hhigh
    have hfloor_low : a ≤ ⌊p.min + (p.max - p.min) / ((sc : ℚ) - 1) * i + 1/2⌋ :=
      Int.le_floor.2 (by linarith)
    have hfloor_high : ⌊p.min + (p.max - p.min) / ((sc : ℚ) - 1) * i + 1/2⌋ ≤ b := by
      have hlt : p.min + (p.max - p.min) / ((sc : ℚ) - 1) * i + 1/2 <
          ((b + 1 : ℤ) : ℚ) := by
        push_cast
        linarith
      exact Int.lt_add_one_iff.1 (Int.floor_lt.2 hlt)
    have hcast_low : (a : ℚ) ≤
        ((⌊p.min + (p.max - p.min) / ((sc : ℚ) - 1) * i + 1/2⌋ : ℤ) : ℚ) :=
      Int.cast_le.mpr hfloor_low
    have hcast_high :
        ((⌊p.min + (p.max - p.min) / ((sc : ℚ) - 1) * i + 1/2⌋ : ℤ) : ℚ) ≤ (b : ℚ) :=
      Int.cast_le.mpr hfloor_high
    refine ⟨by linarith, by linarith, fun _ => ⟨_, rfl⟩⟩
  · simp only [htype, if_false]
    exact ⟨hlow, hhigh, fun h => h.elim⟩

/-- **C5 amended.**  For parameter lists with pairwise-distinct names whose
numeric parameters satisfy `min ≤ max` and — for integer parameters — have
integer bounds (the caller-guaranteed type/bound consistency the original
claim omits), and for every density and shuffle oracle: the generator's
output is duplicate-free, is a permutation of the deterministic (shuffle-
independent) capped enumeration, samples each boolean parameter at exactly
`{true, false}`, assigns every parameter of every candidate a value from
that parameter's sample list, and samples each numeric parameter at evenly
spaced values that lie in `[min, max]` and are integers for integer
parameters. -/
theorem candidate_generator_structure (σ : ℕ → ℚ) (k : ℕ) (params : List Param)
    (density : Density) (hnames : (params.map Param.name).Nodup)
    (hnum : ∀ p ∈ params, (p.type = PType.integer ∨ p.type = PType.float) →
      p.min ≤ p.max)
    (hint : ∀ p ∈ params, p.type = PType.integer →
      (∃ a : ℤ, p.min = a) ∧ ∃ b : ℤ, p.max = b) :
    (generateParameterSets σ k params density).Nodup ∧
    (generateParameterSets σ k params density).Perm
      ((genAll (fun p => generateParameterSteps p (densitySteps density))
        params []).take 10000) ∧
    (∀ p ∈ params, p.type = PType.boolean →
      generateParameterSteps p (densitySteps density) =
        [Value.bool true, Value.bool false]) ∧
    (∀ ps ∈ generateParameterSets σ k params density,
      List.Forall₂ (fun p (nv : String × Value) =>
        nv.1 = p.name ∧ nv.2 ∈ generateParameterSteps p (densitySteps density))
        params ps) ∧
    (∀ p ∈ params, (p.type = PType.integer ∨ p.type = PType.float) →
      ∀ v ∈ generateParameterSteps p (densitySteps density), ∃ q : ℚ,
        v = Value.num q ∧ p.min ≤ q ∧ q ≤ p.max ∧
        (∃ i, i < densitySteps density ∧
          q = numericStepValue p (densitySteps density) i) ∧
        (p.type = PType.integer → ∃ z : ℤ, q = z)) := by
  have hperm : (generateParameterSets σ k params density).Perm
      ((genAll (fun p => generateParameterSteps p (densitySteps density))
        params []).take 10000) := by
    rw [generateParameterSets_eq_shuffled_take]
    exact shuffleArray_perm σ k _
  have hsc2 : 2 ≤ densitySteps density := by
    cases density <;> norm_num [densitySteps]
  refine ⟨?_, hperm, ?_, ?_, ?_⟩
  · refine (hperm.symm).nodup (List.Nodup.sublist (List.take_sublist _ _) ?_)
    exact genAll_nodup _ (fun p => generateParameterSteps_nodup p _) params []
  · intro p _ htype
    rw [generateParameterSteps, htype]
  · intro ps hps
    have hmem : ps ∈ (genAll
        (fun p => generateParameterSteps p (densitySteps density)) params []) :=
      (List.take_sublist _ _).mem (hperm.mem_iff.1 hps)
    obtain ⟨t, ht, hforall⟩ := (mem_genAll _ params [] ps).1 hmem
    simpa [ht] using hforall
  · intro p hp htype v hv
    have hnum' := hnum p hp htype
    have hint' := hint p hp
    have hsteps : generateParameterSteps p (densitySteps density) =
        (numericSteps p (densitySteps density)).map Value.num := by
      rcases htype with h | h <;> rw [generateParameterSteps, h]
    rw [hsteps] at hv
    obtain ⟨q, hq, rfl⟩ := List.mem_map.1 hv
    obtain ⟨i, hisc, rfl⟩ := mem_numericSteps p _ q hq
    obtain ⟨h1, h2, h3⟩ := numericStepValue_bounds p _ i hnum' hsc2 hisc hint'
    exact ⟨_, rfl, h1, h2, ⟨i, hisc, rfl⟩, h3⟩

/-- Witness for C5 at a concrete input: one integer parameter
`length ∈ [5, 50]`, basic density, a constant shuffle oracle. -/
theorem candidate_generator_structure_witness :
    (generateParameterSets (fun _ => 0) 0
      [⟨"length", PType.integer, 5, 50, some 1, Value.num 14⟩]
      Density.basic).Nodup ∧
    (generateParameterSets (fun _ => 0) 0
      [⟨"length", PType.integer, 5, 50, some 1, Value.num 14⟩]
      Density.basic).Perm
      ((genAll (fun p => generateParameterSteps p (densitySteps Density.basic))
        [⟨"length", PType.integer, 5, 50, some 1, Value.num 14⟩] []).take 10000) ∧
    (∀ p ∈ [(⟨"length", PType.integer, 5, 50, some 1, Value.num 14⟩ : Param)],
      p.type = PType.boolean →
      generateParameterSteps p (densitySteps Density.basic) =
        [Value.bool true, Value.bool false]) ∧
    (∀ ps ∈ generateParameterSets (fun _ => 0) 0
        [⟨"length", PType.integer, 5, 50, some 1, Value.num 14⟩] Density.basic,
      List.Forall₂ (fun p (nv : String × Value) =>
        nv.1 = p.name ∧
          nv.2 ∈ generateParameterSteps p (densitySteps Density.basic))
        [⟨"length", PType.integer, 5, 50, some 1, Value.num 14⟩] ps) ∧
    (∀ p ∈ [(⟨"length", PType.integer, 5, 50, some 1, Value.num 14⟩ : Param)],
      (p.type = PType.integer ∨ p.type = PType.float) →
      ∀ v ∈ generateParameterSteps p (densitySteps Density.basic), ∃ q : ℚ,
        v = Value.num q ∧ p.min ≤ q ∧ q ≤ p.max ∧
        (∃ i, i < densitySteps Density.basic ∧
          q = numericStepValue p (densitySteps Density.basic) i) ∧
        (p.type = PType.integer → ∃ z : ℤ, q = z)) :=
  candidate_generator_structure (fun _ => 0) 0
    [⟨"length", PType.integer, 5, 50, some 1, Value.num 14⟩] Density.basic
    (by simp)
    (by intro p hp _; simp only [List.mem_singleton] at hp; subst hp; norm_num)
    (by
      intro p hp _
      simp only [List.mem_singleton] at hp
      subst hp
      exact ⟨⟨5, by norm_num⟩, ⟨50, by norm_num⟩⟩)

/-! ## The evaluation loop: what gets recorded under cancellation -/

theorem evalRun_length (score : ParamSet → ℕ → ℚ) :
    ∀ (cands : List ParamSet) (i : ℕ), (evalRun score cands i).length = cands.length := by
  intro cands
  induction cands with
  | nil => intro i; rfl
  | cons ps rest ih => intro i; simp [evalRun, ih]

theorem gridLoop_spec (flag : ℕ → Bool) (score : ParamSet → ℕ → ℚ) :
    ∀ (cands : List ParamSet) (i : ℕ) (s : OptState),
      ∃ n, n ≤ cands.length ∧
        (gridLoop flag score cands i s).results =
          s.results ++ evalRun score (cands.take n) i ∧
        (∀ m, m < n → flag (s.results.length + m) = true) ∧
        (n < cands.length → flag (s.results.length + n) = false) := by
  intro cands
  induction cands with
  | nil =>
      intro i s
      exact ⟨0, le_refl 0, by simp [gridLoop, evalRun], fun m hm => absurd hm (by omega),
        fun h => absurd h (by simp)⟩
  | cons ps rest ih =>
      intro i s
      by_cases hf : flag s.results.length
      · obtain ⟨n, hn, hres, hflag, hstop⟩ :=
          ih (i + 1) (s.record (testParameterSet score ps i))
        refine ⟨n + 1, by simp only [List.length_cons]; omega, ?_, ?_, ?_⟩
        · rw [gridLoop, if_pos hf, hres]
          simp [OptState.record, evalRun]
        · intro m hm
          cases m with
          | zero => simpa using hf
          | succ m =>
              have := hflag m (by omega)
              simp only [OptState.record, List.length_append, List.length_singleton] at this
              simpa [Nat.add_assoc, Nat.add_comm 1 m] using this
        · intro hlen
          have := hstop (by simpa using Nat.lt_of_succ_lt_succ (by simpa using hlen))
          simp only [OptState.record, List.length_append, List.length_singleton] at this
          simpa [Nat.add_assoc, Nat.add_comm 1 n] using this
      · refine ⟨0, by omega, ?_, fun m hm => absurd hm (by omega), fun _ => ?_⟩
        · rw [gridLoop, if_neg hf]
          simp [evalRun]
        · simpa using hf

/-! ## C7 — cancellation responsiveness of `stop()` -/

/-- **C7.**  `stop()` clears the `isOptimizing` flag, and the basic phase
checks that flag before every evaluation: for a run from the fresh state
there is an `n` such that exactly the first `n` candidates were evaluated
and recorded in order; every evaluation that was started saw a live flag
(`flag m = true` for all `m < n`); once the flag reads `false` after `m`
recorded evaluations no further evaluation starts (`n ≤ m` — the
evaluation in flight when `stop()` arrived is the `m`-th, already counted,
and its result is in the log); and `basicOptimization` then hands exactly
that state to the normal `compileResults` compilation. -/
theorem stop_cancellation_responsive (σ : ℕ → ℚ) (flag : ℕ → Bool)
    (score : ParamSet → ℕ → ℚ) (params : List Param) (maxIterations : ℕ) :
    ∃ n, n ≤ min (generateParameterSets σ 0 params Density.basic).length maxIterations ∧
      (gridLoop flag score
        ((generateParameterSets σ 0 params Density.basic).take
          (min (generateParameterSets σ 0 params Density.basic).length maxIterations))
        0 {}).results =
        evalRun score ((generateParameterSets σ 0 params Density.basic).take
          (min (generateParameterSets σ 0 params Density.basic).length maxIterations)
          |>.take n) 0 ∧
      (∀ m, m < n → flag m = true) ∧
      (∀ m, flag m = false → n ≤ m) ∧
      basicOptimization σ flag score params maxIterations =
        compileResults (gridLoop flag score
          ((generateParameterSets σ 0 params Density.basic).take
            (min (generateParameterSets σ 0 params Density.basic).length maxIterations))
          0 {}) := by
  obtain ⟨n, hn, hres, hflag, _⟩ := gridLoop_spec flag score
    ((generateParameterSets σ 0 params Density.basic).take
      (min (generateParameterSets σ 0 params Density.basic).length maxIterations)) 0 {}
  refine ⟨n, ?_, by simpa using hres, fun m hm => by simpa using hflag m hm, ?_, rfl⟩
  · calc n ≤ _ := hn
      _ ≤ _ := by
        rw [List.length_take]
        omega
  · intro m hm
    by_contra hlt
    push_neg at hlt
    have := hflag m hlt
    simp only [OptState.results, List.length_nil, Nat.zero_add] at this
    rw [hm] at this
    exact Bool.false_ne_true this

/-- Witness for C7: two candidates, the flag cleared after one recorded
evaluation — the theorem applies with every inner hypothesis dischargeable
at this input. -/
theorem stop_cancellation_responsive_witness :
    ∃ n, n ≤ min (generateParameterSets (fun _ => 0) 0
        [⟨"x", PType.boolean, 0, 0, none, Value.bool true⟩] Density.basic).length 5 ∧
      (gridLoop (fun m => decide (m < 1)) (fun _ _ => 3)
        ((generateParameterSets (fun _ => 0) 0
          [⟨"x", PType.boolean, 0, 0, none, Value.bool true⟩] Density.basic).take
          (min (generateParameterSets (fun _ => 0) 0
            [⟨"x", PType.boolean, 0, 0, none, Value.bool true⟩] Density.basic).length 5))
        0 {}).results =
        evalRun (fun _ _ => 3) ((generateParameterSets (fun _ => 0) 0
          [⟨"x", PType.boolean, 0, 0, none, Value.bool true⟩] Density.basic).take
          (min (generateParameterSets (fun _ => 0) 0
            [⟨"x", PType.boolean, 0, 0, none, Value.bool true⟩] Density.basic).length 5)
          |>.take n) 0 ∧
      (∀ m, m < n → (fun m => decide (m < 1)) m = true) ∧
      (∀ m, (fun m => decide (m < 1)) m = false → n ≤ m) ∧
      basicOptimization (fun _ => 0) (fun m => decide (m < 1)) (fun _ _ => 3)
          [⟨"x", PType.boolean, 0, 0, none, Value.bool true⟩] 5 =
        compileResults (gridLoop (fun m => decide (m < 1)) (fun _ _ => 3)
          ((generateParameterSets (fun _ => 0) 0
            [⟨"x", PType.boolean, 0, 0, none, Value.bool true⟩] Density.basic).take
            (min (generateParameterSets (fun _ => 0) 0
              [⟨"x", PType.boolean, 0, 0, none, Value.bool true⟩] Density.basic).length 5))
          0 {}) :=
  stop_cancellation_responsive (fun _ => 0) (fun m => decide (m < 1)) (fun _ _ => 3)
    [⟨"x", PType.boolean, 0, 0, none, Value.bool true⟩] 5

/-! ## Phase length bookkeeping for the iteration budget -/

theorem compileResults_totalTests (s : OptState) :
    (compileResults s).1.totalTests = s.results.length := rfl

theorem getTopResults_results_length (s : OptState) (count : ℕ) :
    (getTopResults s count).2.results.length = s.results.length :=
  (getTopResults_perm s count).length_eq

theorem gridLoop_length_le (flag : ℕ → Bool) (score : ParamSet → ℕ → ℚ)
    (cands : List ParamSet) (i : ℕ) (s : OptState) :
    (gridLoop flag score cands i s).results.length ≤
      s.results.length + cands.length := by
  obtain ⟨n, hn, hres, -, -⟩ := gridLoop_spec flag score cands i s
  rw [hres]
  simp only [List.length_append, evalRun_length, List.length_take]
  omega

theorem fineLoop_length_le (flag : ℕ → Bool) (score : ParamSet → ℕ → ℚ) :
    ∀ (cands : List ParamSet) (s : OptState),
      (fineLoop flag score cands s).results.length ≤
        s.results.length + cands.length := by
  intro cands
  induction cands with
  | nil => intro s; simp [fineLoop]
  | cons ps rest ih =>
      intro s
      rw [fineLoop]
      split_ifs with hf
      · refine le_trans (ih _) ?_
        simp only [OptState.record, List.length_append, List.length_cons,
          List.length_singleton, List.length_nil]
        omega
      · simp only [List.length_cons]
        omega

theorem evalPopLoop_spec (flag : ℕ → Bool) (score : ParamSet → ℕ → ℚ) :
    ∀ (pop acc : List Individual) (s : OptState),
      (evalPopLoop flag score pop acc s).2.results.length ≤
        s.results.length + pop.length ∧
      (evalPopLoop flag score pop acc s).1.length = acc.length + pop.length := by
  intro pop
  induction pop with
  | nil => intro acc s; simp [evalPopLoop]
  | cons ind rest ih =>
      intro acc s
      rw [evalPopLoop]
      split_ifs with hf hfit
      · constructor
        · refine le_trans (ih _ _).1 ?_
          simp only [OptState.record, List.length_append, List.length_cons,
            List.length_singleton, List.length_nil]
          omega
        · rw [(ih _ _).2]
          simp only [List.length_append, List.length_singleton, List.length_cons,
            List.length_nil]
          omega
      · constructor
        · refine le_trans (ih _ _).1 ?_
          simp only [List.length_cons]
          omega
        · rw [(ih _ _).2]
          simp only [List.length_append, List.length_singleton, List.length_cons,
            List.length_nil]
          omega
      · exact ⟨Nat.le_add_right _ _, by simp⟩

theorem padPopulation_length (σ : ℕ → ℚ) (params : List Param) :
    ∀ (n k : ℕ) (pop : List Individual),
      (padPopulation σ params n k pop).1.length = pop.length + n := by
  intro n
  induction n with
  | zero => intro k pop; simp [padPopulation]
  | succ n ih =>
      intro k pop
      rw [padPopulation]
      rw [ih]
      simp
      omega

theorem evolveFill_length (σ : ℕ → ℚ) (pop : List Individual)
    (params : List Param) :
    ∀ (n k : ℕ) (newPop : List Individual),
      (evolveFill σ pop params n k newPop).1.length = newPop.length + n := by
  intro n
  induction n with
  | zero => intro k newPop; simp [evolveFill]
  | succ n ih =>
      intro k newPop
      rw [evolveFill]
      rw [ih]
      simp
      omega

theorem evolvePopulation_length (σ : ℕ → ℚ) (k : ℕ) (pop : List Individual)
    (params : List Param) :
    (evolvePopulation σ k pop params).1.length = pop.length := by
  rw [evolvePopulation]
  have helite : (⌊(pop.length : ℚ) * (2/10)⌋).toNat ≤ pop.length := by
    rw [Int.toNat_le]
    calc ⌊(pop.length : ℚ) * (2/10)⌋ ≤ ⌊(pop.length : ℚ)⌋ :=
        Int.floor_le_floor (by
          have : (0 : ℚ) ≤ (pop.length : ℚ) := Nat.cast_nonneg _
          linarith)
      _ = pop.length := Int.floor_natCast _
  rw [evolveFill_length]
  simp only [List.length_take, List.length_mergeSort]
  omega

theorem genLoop_length (σ : ℕ → ℚ) (flag : ℕ → Bool)
    (score : ParamSet → ℕ → ℚ) (params : List Param) :
    ∀ (gens : ℕ) (pop : List Individual) (k : ℕ) (s : OptState),
      (genLoop σ flag score params gens pop k s).1.results.length ≤
        s.results.length + gens * pop.length := by
  intro gens
  induction gens with
  | zero => intro pop k s; simp [genLoop]
  | succ gens ih =>
      intro pop k s
      rw [genLoop]
      split_ifs with hf
      · rcases hev : evalPopLoop flag score pop [] s with ⟨pop', s'⟩
        rcases hevo : evolvePopulation σ k pop' params with ⟨pop'', k'⟩
        simp only [hev, hevo]
        have hspec := evalPopLoop_spec flag score pop [] s
        rw [hev] at hspec
        have hlen' : pop'.length = pop.length := by
          simpa using hspec.2
        have hlen'' : pop''.length = pop.length := by
          have h := evolvePopulation_length σ k pop' params
          rw [hevo] at h
          simpa [hlen'] using h
        refine le_trans (ih pop'' k' s') ?_
        rw [hlen'', Nat.succ_mul]
        have hs' : s'.results.length ≤ s.results.length + pop.length := by
          simpa using hspec.1
        omega
      · simp only [OptState.results]
        omega

theorem initializePopulation_spec (σ : ℕ → ℚ) (k : ℕ) (params : List Param)
    (size : ℕ) (s : OptState) :
    (initializePopulation σ k params size s).1.length = size ∨
      (initializePopulation σ k params size s).1.length ≤ size := by
  right
  rw [initializePopulation]
  rcases htop : getTopResults s (min 5 size) with ⟨top, s'⟩
  simp only
  rw [padPopulation_length]
  have htoplen : top.length ≤ size := by
    have : top = (sortByScoreDesc s.results).take (min 5 size) := by
      have := congrArg Prod.fst htop
      simpa [getTopResults] using this.symm
    rw [this]
    simp only [List.length_take]
    omega
  simp only [List.length_map]
  omega

theorem initializePopulation_results_length (σ : ℕ → ℚ) (k : ℕ)
    (params : List Param) (size : ℕ) (s : OptState) :
    (initializePopulation σ k params size s).2.1.results.length =
      s.results.length := by
  rw [initializePopulation]
  rcases htop : getTopResults s (min 5 size) with ⟨top, s'⟩
  simp only
  have := getTopResults_results_length s (min 5 size)
  rw [htop] at this
  exact this

theorem geneticOptimization_length (σ : ℕ → ℚ) (k : ℕ) (flag : ℕ → Bool)
    (score : ParamSet → ℕ → ℚ) (params : List Param) (iterations : ℕ)
    (s : OptState) :
    (geneticOptimization σ k flag score params iterations s).1.results.length ≤
      s.results.length + iterations := by
  rw [geneticOptimization]
  rcases hinit : initializePopulation σ k params
    (min 20 (max 10 (iterations / 5))) s with ⟨population, s', k'⟩
  rcases hgen : genLoop σ flag score params
    (iterations / min 20 (max 10 (iterations / 5))) population k' s' with ⟨s'', pop'', k''⟩
  simp only [hinit, hgen]
  have hpop : population.length ≤ min 20 (max 10 (iterations / 5)) := by
    have := initializePopulation_spec σ k params (min 20 (max 10 (iterations / 5))) s
    rw [hinit] at this
    rcases this with h | h
    · exact le_of_eq h
    · exact h
  have hs' : s'.results.length = s.results.length := by
    have := initializePopulation_results_length σ k params
      (min 20 (max 10 (iterations / 5))) s
    rw [hinit] at this
    exact this
  have hloop := genLoop_length σ flag score params
    (iterations / min 20 (max 10 (iterations / 5))) population k' s'
  rw [hgen] at hloop
  simp only at hloop
  refine le_trans hloop ?_
  rw [hs']
  have hdiv : (iterations / min 20 (max 10 (iterations / 5))) * population.length ≤
      iterations := by
    calc (iterations / min 20 (max 10 (iterations / 5))) * population.length
        ≤ (iterations / min 20 (max 10 (iterations / 5))) *
            min 20 (max 10 (iterations / 5)) :=
          Nat.mul_le_mul_left _ hpop
      _ ≤ iterations := Nat.div_mul_le_self _ _
  omega

theorem lsNeighborLoop_invariant (flag : ℕ → Bool) (score : ParamSet → ℕ → ℚ)
    (iterations : ℕ) (ns : List ParamSet) (t : LsState) :
    t.iteration ≤ (lsNeighborLoop flag score iterations ns t).iteration ∧
    (lsNeighborLoop flag score iterations ns t).s.results.length + t.iteration =
      t.s.results.length + (lsNeighborLoop flag score iterations ns t).iteration ∧
    (t.iteration ≤ iterations →
      (lsNeighborLoop flag score iterations ns t).iteration ≤ iterations) ∧
    ((lsNeighborLoop flag score iterations ns t).improved = true →
      t.improved = true ∨
        t.iteration < (lsNeighborLoop flag score iterations ns t).iteration) := by
  induction ns, t using lsNeighborLoop.induct flag score iterations with
  | case1 t =>
      rw [lsNeighborLoop]
      exact ⟨le_refl _, by omega, fun h => h, fun h => Or.inl h⟩
  | case2 n rest t hguard =>
      rw [lsNeighborLoop, if_pos hguard]
      exact ⟨le_refl _, by omega, fun h => h, fun h => Or.inl h⟩
  | case3 n rest t hguard r s1 hlt ih =>
      have heq : lsNeighborLoop flag score iterations (n :: rest) t =
          lsNeighborLoop flag score iterations rest
            { currentBest := r, iteration := t.iteration + 1, improved := true,
              s := { results := s1.results,
                     bestResult := updateBestResult s1.bestResult r } } := by
        rw [lsNeighborLoop, if_neg hguard, if_pos hlt]
      rw [heq]
      obtain ⟨h1, h2, h3, h4⟩ := ih
      have hs1 : s1.results = t.s.results ++ [r] := rfl
      simp only [hs1, List.length_append, List.length_singleton] at h1 h2 h3 h4 ⊢
      push_neg at hguard
      refine ⟨by omega, by omega, fun hle => h3 (by omega), fun _ => Or.inr (by omega)⟩
  | case4 n rest t hguard r s1 hlt ih =>
      have heq : lsNeighborLoop flag score iterations (n :: rest) t =
          lsNeighborLoop flag score iterations rest
            { t with iteration := t.iteration + 1, s := s1 } := by
        rw [lsNeighborLoop, if_neg hguard, if_neg hlt]
      rw [heq]
      obtain ⟨h1, h2, h3, h4⟩ := ih
      have hs1 : s1.results = t.s.results ++ [r] := rfl
      simp only [hs1, List.length_append, List.length_singleton] at h1 h2 h3 h4 ⊢
      push_neg at hguard
      refine ⟨by omega, by omega, fun hle => h3 (by omega), ?_⟩
      intro himp
      rcases h4 himp with h | h
      · exact Or.inl h
      · exact Or.inr (by omega)

theorem lsParamLoop_invariant (flag : ℕ → Bool) (score : ParamSet → ℕ → ℚ)
    (iterations : ℕ) (ps : List Param) (t : LsState) :
    t.iteration ≤ (lsParamLoop flag score iterations ps t).iteration ∧
    (lsParamLoop flag score iterations ps t).s.results.length + t.iteration =
      t.s.results.length + (lsParamLoop flag score iterations ps t).iteration ∧
    (t.iteration ≤ iterations →
      (lsParamLoop flag score iterations ps t).iteration ≤ iterations) ∧
    ((lsParamLoop flag score iterations ps t).improved = true →
      t.improved = true ∨
        t.iteration < (lsParamLoop flag score iterations ps t).iteration) := by
  induction ps, t using lsParamLoop.induct flag score iterations with
  | case1 t =>
      rw [lsParamLoop]
      exact ⟨le_refl _, by omega, fun h => h, fun h => Or.inl h⟩
  | case2 p rest t hguard =>
      rw [lsParamLoop, if_pos hguard]
      exact ⟨le_refl _, by omega, fun h => h, fun h => Or.inl h⟩
  | case3 p rest t hguard ih =>
      have heq : lsParamLoop flag score iterations (p :: rest) t =
          lsParamLoop flag score iterations rest
            (lsNeighborLoop flag score iterations
              (generateNeighbors t.currentBest.parameters p) t) := by
        rw [lsParamLoop, if_neg hguard]
      rw [heq]
      obtain ⟨g1, g2, g3, g4⟩ := lsNeighborLoop_invariant flag score iterations
        (generateNeighbors t.currentBest.parameters p) t
      obtain ⟨h1, h2, h3, h4⟩ := ih
      refine ⟨le_trans g1 h1, by omega, fun hle => h3 (g3 hle), ?_⟩
      intro himp
      rcases h4 himp with h | h
      · rcases g4 h with h2 | h2
        · exact Or.inl h2
        · exact Or.inr (lt_of_lt_of_le h2 h1)
      · exact Or.inr (lt_of_le_of_lt g1 h)

theorem lsWhile_length (flag : ℕ → Bool) (score : ParamSet → ℕ → ℚ)
    (iterations : ℕ) (params : List Param) :
    ∀ (fuel : ℕ) (t : LsState), t.iteration ≤ iterations →
      (lsWhile flag score iterations params fuel t).results.length + t.iteration ≤
        t.s.results.length + iterations := by
  intro fuel
  induction fuel with
  | zero =>
      intro t ht
      simp only [lsWhile]
      omega
  | succ fuel ih =>
      intro t ht
      rw [lsWhile]
      split_ifs with hguard
      · obtain ⟨-, h2, h3, -⟩ := lsParamLoop_invariant flag score iterations params
          { t with improved := false }
        have hiter : (lsParamLoop flag score iterations params
            { t with improved := false }).iteration ≤ iterations :=
          h3 (by simpa using ht)
        have := ih (lsParamLoop flag score iterations params
          { t with improved := false }) hiter
        simp only at h2
        omega
      · omega

theorem localSearchOptimization_length (flag : ℕ → Bool)
    (score : ParamSet → ℕ → ℚ) (params : List Param) (iterations : ℕ)
    (best : EvalResult) (s : OptState) :
    (localSearchOptimization flag score params iterations best s).results.length ≤
      s.results.length + iterations := by
  have h := lsWhile_length flag score iterations params (iterations + 2)
    { currentBest := best, iteration := 0, improved := true, s := s }
    (Nat.zero_le _)
  simpa [localSearchOptimization] using h

theorem lsWhile_guard_false (flag : ℕ → Bool) (score : ParamSet → ℕ → ℚ)
    (iterations : ℕ) (params : List Param) (t : LsState)
    (h : ¬(t.improved = true ∧ t.iteration < iterations ∧
      flag t.s.results.length = true)) :
    ∀ fuel, lsWhile flag score iterations params fuel t = t.s := by
  intro fuel
  cases fuel with
  | zero => rfl
  | succ fuel => rw [lsWhile, if_neg h]

theorem lsWhile_fuel_sufficient (flag : ℕ → Bool) (score : ParamSet → ℕ → ℚ)
    (iterations : ℕ) (params : List Param) :
    ∀ (fuel1 fuel2 : ℕ) (t : LsState),
      iterations + 1 ≤ fuel1 + t.iteration → iterations + 1 ≤ fuel2 + t.iteration →
      lsWhile flag score iterations params fuel1 t =
        lsWhile flag score iterations params fuel2 t := by
  intro fuel1
  induction fuel1 with
  | zero =>
      intro fuel2 t h1 h2
      have hguard : ¬(t.improved = true ∧ t.iteration < iterations ∧
          flag t.s.results.length = true) := by
        rintro ⟨-, hlt, -⟩
        omega
      rw [lsWhile_guard_false flag score iterations params t hguard fuel2]
      rfl
  | succ fuel1 ih =>
      intro fuel2 t h1 h2
      by_cases hguard : t.improved = true ∧ t.iteration < iterations ∧
        flag t.s.results.length = true
      · have hlt := hguard.2.1
        cases fuel2 with
        | zero => omega
        | succ fuel2 =>
            rw [lsWhile, lsWhile]
            rw [if_pos (by exact hguard), if_pos (by exact hguard)]
            obtain ⟨g1, -, -, g4⟩ := lsParamLoop_invariant flag score iterations
              params { t with improved := false }
            by_cases himp : (lsParamLoop flag score iterations params
                { t with improved := false }).improved = true
            · have hgrow : t.iteration < (lsParamLoop flag score iterations params
                  { t with improved := false }).iteration := by
                rcases g4 himp with h | h
                · simp at h
                · simpa using h
              exact ih fuel2 _ (by omega) (by omega)
            · have hguard' : ¬((lsParamLoop flag score iterations params
                  { t with improved := false }).improved = true ∧
                  (lsParamLoop flag score iterations params
                    { t with improved := false }).iteration < iterations ∧
                  flag (lsParamLoop flag score iterations params
                    { t with improved := false }).s.results.length = true) := by
                rintro ⟨h, -, -⟩
                exact himp h
              rw [lsWhile_guard_false flag score iterations params _ hguard' fuel1,
                lsWhile_guard_false flag score iterations params _ hguard' fuel2]
      · rw [lsWhile_guard_false flag score iterations params t hguard (fuel1 + 1),
          lsWhile_guard_false flag score iterations params t hguard fuel2]

theorem toNat_floor_mul_le (m : ℕ) (c : ℚ) (h0 : 0 ≤ c) (h1 : c ≤ 1) :
    (⌊(m : ℚ) * c⌋).toNat ≤ m := by
  rw [Int.toNat_le]
  calc ⌊(m : ℚ) * c⌋ ≤ ⌊(m : ℚ)⌋ := by
        refine Int.floor_le_floor ?_
        have hm : (0 : ℚ) ≤ (m : ℚ) := Nat.cast_nonneg m
        nlinarith
    _ = m := Int.floor_natCast m

theorem floor_three_four_tenths (m : ℕ) :
    (⌊(m : ℚ) * (3/10)⌋).toNat + (⌊(m : ℚ) * (4/10)⌋).toNat ≤ m := by
  have hm : (0 : ℚ) ≤ (m : ℚ) := Nat.cast_nonneg m
  have h3 : (⌊(m : ℚ) * (3/10)⌋ : ℚ) ≤ (m : ℚ) * (3/10) := Int.floor_le _
  have h4 : (⌊(m : ℚ) * (4/10)⌋ : ℚ) ≤ (m : ℚ) * (4/10) := Int.floor_le _
  have hnn3 : 0 ≤ ⌊(m : ℚ) * (3/10)⌋ := Int.floor_nonneg.2 (by nlinarith)
  have hnn4 : 0 ≤ ⌊(m : ℚ) * (4/10)⌋ := Int.floor_nonneg.2 (by nlinarith)
  have hsum : ⌊(m : ℚ) * (3/10)⌋ + ⌊(m : ℚ) * (4/10)⌋ ≤ (m : ℤ) := by
    have : ((⌊(m : ℚ) * (3/10)⌋ + ⌊(m : ℚ) * (4/10)⌋ : ℤ) : ℚ) ≤ ((m : ℤ) : ℚ) := by
      push_cast
      linarith
    exact_mod_cast this
  omega

/-! ## C4 — iteration budget and phase termination -/

/-- **C4.**  For every parameter list, every evaluator, every cancellation
schedule and every random oracle, the number of recorded evaluations
reported at run end (`totalTests`, the length of the results log) is at
most `config.maxIterations` for the Basic, Standard and Deep profiles (the
Deep profile's final local-search phase absorbs exactly the remaining
budget and can reach it).  Moreover each profile is a fixed finite
composition of phases, and the one loop whose trip count is not structural
— the local-search `while (improved && …)` loop — genuinely terminates: its
value is independent of the fuel once the fuel exceeds the iteration
budget, which is what `localSearchOptimization`'s `iterations + 2` fuel
provides. -/
theorem run_budget_respected (σ σg : ℕ → ℚ) (flag : ℕ → Bool)
    (score : ParamSet → ℕ → ℚ) (params : List Param) (maxIterations : ℕ) :
    (basicOptimization σ flag score params maxIterations).1.totalTests ≤
      maxIterations ∧
    (standardOptimization σ flag score params maxIterations).1.totalTests ≤
      maxIterations ∧
    (deepOptimization σ σg flag score params maxIterations).1.totalTests ≤
      maxIterations ∧
    (∀ (fuel iterations : ℕ) (best : EvalResult) (s : OptState),
      iterations + 1 ≤ fuel →
      lsWhile flag score iterations params fuel
        { currentBest := best, iteration := 0, improved := true, s := s } =
        localSearchOptimization flag score params iterations best s) := by
  refine ⟨?_, ?_, ?_, ?_⟩
  · -- Basic profile
    have hb : (basicOptimization σ flag score params maxIterations).1.totalTests =
        (gridLoop flag score
          ((generateParameterSets σ 0 params Density.basic).take
            (min (generateParameterSets σ 0 params Density.basic).length
              maxIterations)) 0 {}).results.length := rfl
    rw [hb]
    refine le_trans (gridLoop_length_le flag score _ 0 {}) ?_
    simp only [OptState.results, List.length_nil, List.length_take, Nat.zero_add]
    omega
  · -- Standard profile
    rw [standardOptimization]
    simp only [compileResults_totalTests]
    have hphase1 : (gridLoop flag score
        ((generateParameterSets σ 0 params Density.coarse).take
          (min (generateParameterSets σ 0 params Density.coarse).length
            (⌊(maxIterations : ℚ) * (6/10)⌋).toNat)) 0 {}).results.length ≤
        maxIterations := by
      refine le_trans (gridLoop_length_le flag score _ 0 {}) ?_
      simp only [OptState.results, List.length_nil, List.length_take, Nat.zero_add]
      have := toNat_floor_mul_le maxIterations (6/10) (by norm_num) (by norm_num)
      omega
    split_ifs with hc
    · refine le_trans (fineLoop_length_le flag score _ _) ?_
      rw [getTopResults_results_length]
      simp only [List.length_take]
      omega
    · exact hphase1
  · -- Deep profile
    rw [deepOptimization]
    simp only [compileResults_totalTests]
    have hA : (gridLoop flag score
        ((generateParameterSets σ 0 params Density.coarse).take
          (min (generateParameterSets σ 0 params Density.coarse).length
            (⌊(maxIterations : ℚ) * (3/10)⌋).toNat)) 0 {}).results.length ≤
        (⌊(maxIterations : ℚ) * (3/10)⌋).toNat := by
      refine le_trans (gridLoop_length_le flag score _ 0 {}) ?_
      simp only [OptState.results, List.length_nil, List.length_take, Nat.zero_add]
      omega
    have htally := floor_three_four_tenths maxIterations
    have hB := geneticOptimization_length σg 0 flag score params
      ((⌊(maxIterations : ℚ) * (4/10)⌋).toNat)
      (gridLoop flag score
        ((generateParameterSets σ 0 params Density.coarse).take
          (min (generateParameterSets σ 0 params Density.coarse).length
            (⌊(maxIterations : ℚ) * (3/10)⌋).toNat)) 0 {})
    split_ifs with hc1 hc2 hc3
    · rcases hbest : (geneticOptimization σg 0 flag score params
          ((⌊(maxIterations : ℚ) * (4/10)⌋).toNat)
          (gridLoop flag score
            ((generateParameterSets σ 0 params Density.coarse).take
              (min (generateParameterSets σ 0 params Density.coarse).length
                (⌊(maxIterations : ℚ) * (3/10)⌋).toNat)) 0 {})).1.bestResult
        with _ | best
      · simp only [hbest]
        omega
      · simp only [hbest]
        refine le_trans (localSearchOptimization_length flag score params _ best _) ?_
        omega
    · rcases hbest : (geneticOptimization σg 0 flag score params
          ((⌊(maxIterations : ℚ) * (4/10)⌋).toNat)
          (gridLoop flag score
            ((generateParameterSets σ 0 params Density.coarse).take
              (min (generateParameterSets σ 0 params Density.coarse).length
                (⌊(maxIterations : ℚ) * (3/10)⌋).toNat)) 0 {})).1.bestResult
        with _ | best
      all_goals simp only [hbest]
      all_goals omega
    · rcases hbest : (gridLoop flag score
          ((generateParameterSets σ 0 params Density.coarse).take
            (min (generateParameterSets σ 0 params Density.coarse).length
              (⌊(maxIterations : ℚ) * (3/10)⌋).toNat)) 0 {}).bestResult
        with _ | best
      · simp only [hbest]
        omega
      · simp only [hbest]
        refine le_trans (localSearchOptimization_length flag score params _ best _) ?_
        omega
    · rcases hbest : (gridLoop flag score
          ((generateParameterSets σ 0 params Density.coarse).take
            (min (generateParameterSets σ 0 params Density.coarse).length
              (⌊(maxIterations : ℚ) * (3/10)⌋).toNat)) 0 {}).bestResult
        with _ | best
      all_goals simp only [hbest]
      all_goals omega
  · -- the local-search while loop's fuel is sufficient
    intro fuel iterations best s hfuel
    rw [localSearchOptimization]
    exact lsWhile_fuel_sufficient flag score iterations params fuel (iterations + 2)
      { currentBest := best, iteration := 0, improved := true, s := s }
      (by simpa using hfuel) (by simp)

/-- Witness for C4 at a concrete input (one boolean parameter, budget 3, live
flag, constant oracles; the fuel clause instantiated at
`iterations = 8, fuel = 9`). -/
theorem run_budget_respected_witness :
    (basicOptimization (fun _ => 0) (fun _ => true) (fun _ _ => 1)
      [⟨"x", PType.boolean, 0, 0, none, Value.bool true⟩] 3).1.totalTests ≤ 3 ∧
    (standardOptimization (fun _ => 0) (fun _ => true) (fun _ _ => 1)
      [⟨"x", PType.boolean, 0, 0, none, Value.bool true⟩] 3).1.totalTests ≤ 3 ∧
    (deepOptimization (fun _ => 0) (fun _ => 0) (fun _ => true) (fun _ _ => 1)
      [⟨"x", PType.boolean, 0, 0, none, Value.bool true⟩] 3).1.totalTests ≤ 3 ∧
    lsWhile (fun _ => true) (fun _ _ => 1) 8
        [⟨"x", PType.boolean, 0, 0, none, Value.bool true⟩] 9
        { currentBest := ⟨0, [], 0⟩, iteration := 0, improved := true,
          s := {} } =
      localSearchOptimization (fun _ => true) (fun _ _ => 1)
        [⟨"x", PType.boolean, 0, 0, none, Value.bool true⟩] 8 ⟨0, [], 0⟩ {} := by
  obtain ⟨a, b, c, d⟩ := run_budget_respected (fun _ => 0) (fun _ => 0)
    (fun _ => true) (fun _ _ => 1)
    [⟨"x", PType.boolean, 0, 0, none, Value.bool true⟩] 3
  exact ⟨a, b, c, d 9 8 ⟨0, [], 0⟩ {} (by norm_num)⟩

/-! ## C8 — a throwing progress callback aborts the run -/

theorem basicLoopE_none {ε : Type} (flag : ℕ → Bool) (score : ParamSet → ℕ → ℚ)
    (total : ℕ) :
    ∀ (cands : List ParamSet) (i : ℕ) (s : OptState),
      basicLoopE (ε := ε) none flag score total cands i s =
        Except.ok (gridLoop flag score cands i s) := by
  intro cands
  induction cands with
  | nil => intro i s; rfl
  | cons ps rest ih =>
      intro i s
      rw [basicLoopE, gridLoop]
      split_ifs with hf
      · simpa [updateProgressE] using ih (i + 1) (s.record (testParameterSet score ps i))
      · rfl

/-- **C8 counterexample.**  With a registered progress callback that throws,
a basic run over one boolean parameter with budget 1 does not return a
summary: `updateProgress` wraps the callback in no `try`/`catch`, so the
exception propagates out of the evaluation loop (and `optimize` merely
rethrows), aborting the run. -/
theorem throwing_callback_aborts_run :
    basicOptimizationE (ε := Unit) (fun _ => 0) (fun _ => true) (fun _ _ => 1)
        (some fun _ => Except.error ())
        [⟨"x", PType.boolean, 0, 0, none, Value.bool true⟩] 1 =
      Except.error () ∧
    ¬∃ r, basicOptimizationE (ε := Unit) (fun _ => 0) (fun _ => true) (fun _ _ => 1)
        (some fun _ => Except.error ())
        [⟨"x", PType.boolean, 0, 0, none, Value.bool true⟩] 1 =
      Except.ok r := by
  have hcomb : genComb (fun p => generateParameterSteps p (densitySteps Density.basic))
      [⟨"x", PType.boolean, 0, 0, none, Value.bool true⟩] [] [] =
      [[("x", Value.bool true)], [("x", Value.bool false)]] := by
    rw [genComb]
    simp only [densitySteps, generateParameterSteps]
    rw [genComb.genStepsLoop]
    norm_num [genComb, genComb.genStepsLoop]
  have hsets : generateParameterSets (fun _ => 0) 0
      [⟨"x", PType.boolean, 0, 0, none, Value.bool true⟩] Density.basic =
      [[("x", Value.bool false)], [("x", Value.bool true)]] := by
    rw [generateParameterSets, hcomb]
    norm_num [shuffleArray, shuffleGo, listSwap]
  constructor
  · rw [basicOptimizationE, hsets]
    norm_num [basicLoopE, updateProgressE]
  · rintro ⟨r, hr⟩
    rw [basicOptimizationE, hsets] at hr
    norm_num [basicLoopE, updateProgressE] at hr
    exact Except.noConfusion hr

/-- **C8 amended.**  Absence of a registered callback makes progress
reporting a no-op — the run completes and returns exactly the summary of
the callback-free engine.  A registered callback that throws, however,
aborts the run: as soon as one evaluation is performed (live flag, at
least one candidate within budget) its exception propagates and no summary
is produced. -/
theorem progress_callback_amended {ε : Type} (σ : ℕ → ℚ) (flag : ℕ → Bool)
    (score : ParamSet → ℕ → ℚ) (params : List Param) (maxIterations : ℕ) :
    (basicOptimizationE (ε := ε) σ flag score none params maxIterations =
      Except.ok (basicOptimization σ flag score params maxIterations)) ∧
    (∀ e : ε, flag 0 = true →
      0 < min (generateParameterSets σ 0 params Density.basic).length maxIterations →
      basicOptimizationE (ε := ε) σ flag score (some fun _ => Except.error e)
        params maxIterations = Except.error e) := by
  constructor
  · rw [basicOptimizationE, basicOptimization, basicLoopE_none]
  · intro e hflag hpos
    rw [basicOptimizationE]
    rcases hcands : (generateParameterSets σ 0 params Density.basic).take
        (min (generateParameterSets σ 0 params Density.basic).length maxIterations)
      with _ | ⟨c, rest⟩
    · exfalso
      have := congrArg List.length hcands
      simp only [List.length_take, List.length_nil] at this
      omega
    · have hloop : basicLoopE (ε := ε) (some fun _ => Except.error e) flag score
          ((generateParameterSets σ 0 params Density.basic).length ⊓ maxIterations)
          (c :: rest) 0 {} = Except.error e := by
        rw [basicLoopE,
          if_pos (show flag (OptState.results {}).length = true from hflag)]
        rfl
      rw [hloop]

/-- Witness for C8's amended claim at a concrete input (one boolean
parameter, budget 1, live flag, unit exception). -/
theorem progress_callback_amended_witness :
    (basicOptimizationE (ε := Unit) (fun _ => 0) (fun _ => true) (fun _ _ => 1)
        none [⟨"x", PType.boolean, 0, 0, none, Value.bool true⟩] 1 =
      Except.ok (basicOptimization (fun _ => 0) (fun _ => true) (fun _ _ => 1)
        [⟨"x", PType.boolean, 0, 0, none, Value.bool true⟩] 1)) ∧
    basicOptimizationE (ε := Unit) (fun _ => 0) (fun _ => true) (fun _ _ => 1)
        (some fun _ => Except.error ())
        [⟨"x", PType.boolean, 0, 0, none, Value.bool true⟩] 1 =
      Except.error () := by
  obtain ⟨ha, hb⟩ := progress_callback_amended (ε := Unit) (fun _ => 0)
    (fun _ => true) (fun _ _ => 1)
    [⟨"x", PType.boolean, 0, 0, none, Value.bool true⟩] 1
  refine ⟨ha, hb () rfl ?_⟩
  have hcomb : genComb (fun p => generateParameterSteps p (densitySteps Density.basic))
      [⟨"x", PType.boolean, 0, 0, none, Value.bool true⟩] [] [] =
      [[("x", Value.bool true)], [("x", Value.bool false)]] := by
    rw [genComb]
    simp only [densitySteps, generateParameterSteps]
    rw [genComb.genStepsLoop]
    norm_num [genComb, genComb.genStepsLoop]
  rw [generateParameterSets, hcomb]
  norm_num [shuffleArray, shuffleGo, listSwap]

/-! ## C9 — what `mutate` actually does to an offspring -/

/-- **C9 counterexample.**  With every `Math.random()` draw equal to `1/2`,
a `mutate` call on an offspring with one integer parameter `x ∈ [0, 10]`
leaves the offspring completely unchanged (each parameter only mutates on
its own sub-0.1 draw), whereas the claimed "re-randomize every parameter"
semantics (`mutateSpec`, modelled from the spec's words) would set `x` to
the freshly drawn `5 ≠ 3`. -/
theorem mutate_leaves_parameters_unchanged_counterexample :
    mutate (fun _ => (1 : ℚ)/2) 0 [("x", Value.num 3)]
        [⟨"x", PType.integer, 0, 10, some 1, Value.num 0⟩] =
      ([("x", Value.num 3)], 1) ∧
    mutateSpec (fun _ => (1 : ℚ)/2) 0 [("x", Value.num 3)]
        [⟨"x", PType.integer, 0, 10, some 1, Value.num 0⟩] =
      ([("x", Value.num 5)], 1) ∧
    (([("x", Value.num 3)], 1) : ParamSet × ℕ) ≠ ([("x", Value.num 5)], 1) := by
  refine ⟨?_, ?_, by simp⟩
  · norm_num [mutate]
  · norm_num [mutateSpec, generateRandomValue, setKey]

theorem generateRandomValue_bounds (σ : ℕ → ℚ) (k : ℕ) (p : Param)
    (h01 : 0 ≤ σ k ∧ σ k < 1) :
    (p.type = PType.float → p.min ≤ p.max →
      ∃ q, (generateRandomValue σ k p).1 = Value.num q ∧ p.min ≤ q ∧ q ≤ p.max) ∧
    (p.type = PType.integer → (∃ a : ℤ, p.min = a) → (∃ b : ℤ, p.max = b) →
      p.min ≤ p.max →
      ∃ q, (generateRandomValue σ k p).1 = Value.num q ∧ p.min ≤ q ∧ q ≤ p.max ∧
        ∃ z : ℤ, q = z) := by
  obtain ⟨h0, h1⟩ := h01
  constructor
  · intro htype hminmax
    rw [generateRandomValue, htype]
    refine ⟨_, rfl, ?_, ?_⟩
    · nlinarith
    · nlinarith
  · rintro htype ⟨a, ha⟩ ⟨b, hb⟩ hminmax
    rw [generateRandomValue, htype]
    refine ⟨_, rfl, ?_, ?_, ?_⟩
    · have hfl : 0 ≤ ⌊σ k * (p.max - p.min + 1)⌋ := by
        refine Int.floor_nonneg.2 ?_
        nlinarith
      have : (0 : ℚ) ≤ (⌊σ k * (p.max - p.min + 1)⌋ : ℚ) := by exact_mod_cast hfl
      linarith
    · have hfl : ⌊σ k * (p.max - p.min + 1)⌋ < b - a + 1 := by
        refine Int.floor_lt.2 ?_
        rw [ha, hb] at hminmax ⊢
        push_cast
        have : (a : ℚ) ≤ (b : ℚ) := hminmax
        nlinarith
      have hle : ⌊σ k * (p.max - p.min + 1)⌋ ≤ b - a := by omega
      have hcast : ((⌊σ k * (p.max - p.min + 1)⌋ : ℤ) : ℚ) ≤ ((b - a : ℤ) : ℚ) :=
        Int.cast_le.mpr hle
      push_cast at hcast
      linarith
    · refine ⟨⌊σ k * (p.max - p.min + 1)⌋ + a, ?_⟩
      rw [ha]
      push_cast
      ring

theorem generateRandomValue_consumes (σ : ℕ → ℚ) (k : ℕ) (p : Param) :
    (generateRandomValue σ k p).2 = k + 1 := by
  rcases p with ⟨n, ty, mn, mx, st, cur⟩
  cases ty <;> rfl

/-- **C9 amended.**  In the genetic phase an offspring is handed to `mutate`
with probability 10% (the `Math.random() < 0.1` gate in
`evolvePopulation`); `mutate` then draws once per parameter and
re-randomizes **each parameter independently with probability 10%** within
its bounds — so a triggered mutation may change any subset of the
parameters, including none.  Concretely: if no draw is below `0.1` the
offspring is returned unchanged; if every draw is below `0.1` every
parameter is re-randomized via `generateRandomValue`; and a fresh draw in
`[0, 1)` yields a value inside `[min, max]` of the declared type. -/
theorem mutate_per_parameter_amended (σ : ℕ → ℚ) (k : ℕ) (ind : ParamSet)
    (params : List Param) :
    ((∀ j, ¬(σ j < 1/10)) → mutate σ k ind params = (ind, k + params.length)) ∧
    ((∀ j, σ j < 1/10) → mutate σ k ind params =
      params.foldl (fun (acc : ParamSet × ℕ) p =>
        let (v, k2) := generateRandomValue σ (acc.2 + 1) p
        (setKey acc.1 p.name v, k2)) (ind, k)) ∧
    (∀ p : Param, (0 ≤ σ k ∧ σ k < 1) →
      (p.type = PType.float → p.min ≤ p.max →
        ∃ q, (generateRandomValue σ k p).1 = Value.num q ∧ p.min ≤ q ∧ q ≤ p.max) ∧
      (p.type = PType.integer → (∃ a : ℤ, p.min = a) → (∃ b : ℤ, p.max = b) →
        p.min ≤ p.max →
        ∃ q, (generateRandomValue σ k p).1 = Value.num q ∧ p.min ≤ q ∧ q ≤ p.max ∧
          ∃ z : ℤ, q = z)) := by
  refine ⟨?_, ?_, fun p h01 => generateRandomValue_bounds σ k p h01⟩
  · intro hnone
    induction params generalizing ind k with
    | nil => simp [mutate]
    | cons p rest ih =>
        rw [mutate]
        simp only [List.foldl_cons]
        rw [if_neg (hnone k)]
        have h := ih (k + 1) ind
        rw [mutate] at h
        rw [h]
        simp only [List.length_cons, Prod.mk.injEq]
        refine ⟨trivial, by omega⟩
  · intro hall
    rw [mutate]
    have H : ∀ (ps : List Param) (acc : ParamSet × ℕ),
        ps.foldl (fun (acc : ParamSet × ℕ) p =>
          if σ acc.2 < 1/10 then
            let (v, k2) := generateRandomValue σ (acc.2 + 1) p
            (setKey acc.1 p.name v, k2)
          else (acc.1, acc.2 + 1)) acc =
        ps.foldl (fun (acc : ParamSet × ℕ) p =>
          let (v, k2) := generateRandomValue σ (acc.2 + 1) p
          (setKey acc.1 p.name v, k2)) acc := by
      intro ps
      induction ps with
      | nil => intro acc; rfl
      | cons p rest ih =>
          intro acc
          simp only [List.foldl_cons]
          rw [if_pos (hall acc.2)]
          exact ih _
    exact H params (ind, k)


/-- Witness for C9's amended claim: with all draws equal to `1/2` a mutate
call changes nothing; a fresh draw of `1/2` re-randomizes the integer
parameter `x ∈ [0, 10]` to an in-bounds integer. -/
theorem mutate_per_parameter_amended_witness :
    mutate (fun _ => (1 : ℚ)/2) 0 [("x", Value.num 3)]
        [⟨"x", PType.integer, 0, 10, some 1, Value.num 0⟩] =
      ([("x", Value.num 3)], 1) ∧
    (∃ q, (generateRandomValue (fun _ => (1 : ℚ)/2) 0
        ⟨"x", PType.integer, 0, 10, some 1, Value.num 0⟩).1 = Value.num q ∧
      (⟨"x", PType.integer, 0, 10, some 1, Value.num 0⟩ : Param).min ≤ q ∧
      q ≤ (⟨"x", PType.integer, 0, 10, some 1, Value.num 0⟩ : Param).max ∧
      ∃ z : ℤ, q = z) := by
  obtain ⟨h1, h2, h3⟩ := mutate_per_parameter_amended (fun _ => (1 : ℚ)/2) 0
    [("x", Value.num 3)] [⟨"x", PType.integer, 0, 10, some 1, Value.num 0⟩]
  refine ⟨by simpa using h1 (by intro j; norm_num), ?_⟩
  obtain ⟨hf, hi⟩ := h3 ⟨"x", PType.integer, 0, 10, some 1, Value.num 0⟩
    ⟨by norm_num, by norm_num⟩
  exact hi rfl ⟨0, by norm_num⟩ ⟨10, by norm_num⟩ (by norm_num)

end StrategyOptimizer
